import Mathlib

/-!
Verification development for the SwiftMTP ↔ libmtp compatibility harness
(`scripts/compat-harness.py`): a shallow embedding of its
normalisation → diff → classification pipeline, together with theorems
settling the specified properties of that pipeline.

Modelling conventions:
* Python dicts are association lists; `alget` is `dict.get` (first binding
  wins, as Python dicts hold each key once) and `alinsert` is dict
  assignment (overwrite keeps the key's position, new keys append).
* Python's stable `sorted` is `List.insertionSort` (a stable sort) with the
  relevant key order; Python string order is code-point lexicographic,
  embedded as `str_le`.
* The dynamically-typed JSON/parse records are given layered value types
  (`Prim`, `DVal`, `TVal`) covering every shape the harness's parsers and
  normalisers produce; machine integers are `Int`.
-/

/-- Scalar values occurring in raw and normalised records: Python
`None`, `str` and `int`. -/
inductive Prim where
  | pnone
  | pstr (s : String)
  | pint (n : Int)
deriving DecidableEq, Repr

/-- A raw or normalised storage record: a dict of scalars
(e.g. description, volume, capacity_bytes, free_bytes). -/
abbrev StorDict := List (String × Prim)

/-- Values of a (raw or normalised) device dict: scalars, or the list of
storage dicts held under the "storages" key. -/
inductive DVal where
  | prim (p : Prim)
  | storlist (ss : List StorDict)
deriving DecidableEq, Repr

/-- A device record: `mtp-detect`'s per-device dict, `swiftmtp probe`'s
device object, or a normalised device produced by `_normalise_device`. -/
abbrev DevDict := List (String × DVal)

/-- Values of a top-level raw record (`_parse_mtp_detect`'s result or the
decoded `swiftmtp probe` JSON): scalars (including `error` markers), a
"devices" list, a nested "device" object, or top-level device fields. -/
inductive TVal where
  | prim (p : Prim)
  | storlist (ss : List StorDict)
  | devlist (ds : List DevDict)
  | devdict (d : DevDict)
deriving DecidableEq, Repr

/-- A top-level raw record handed to `_normalise_device`. -/
abbrev TopDict := List (String × TVal)

/-- `d.get(k)`: first binding of `k` in the association list. -/
def alget {κ α : Type} [BEq κ] (d : List (κ × α)) (k : κ) : Option α :=
  (d.find? (fun p => p.1 == k)).map Prod.snd

/-- Python dict assignment `d[k] = v`: overwrite in place if the key
exists (keeping its position), otherwise append. -/
def alinsert {κ α : Type} [BEq κ] (m : List (κ × α)) (k : κ) (v : α) : List (κ × α) :=
  if m.any (fun p => p.1 == k) then m.map (fun p => if p.1 == k then (k, v) else p)
  else m ++ [(k, v)]

/-- Code-point lexicographic order on character lists, as Python compares
strings. -/
def char_list_le : List Char → List Char → Bool
  | [], _ => true
  | _ :: _, [] => false
  | a :: as, b :: bs =>
    if a.toNat < b.toNat then true
    else if b.toNat < a.toNat then false
    else char_list_le as bs

/-- Python's `<=` on strings. -/
def str_le (a b : String) : Bool := char_list_le a.data b.data

/-- `str_le` as a decidable relation for sorting. -/
def strOrd : String → String → Prop := fun a b => str_le a b = true

instance : DecidableRel strOrd := fun a b => instDecidableEqBool (str_le a b) true

/-- `s.startswith(pat)` on character lists. -/
def starts_with_chars : List Char → List Char → Bool
  | _, [] => true
  | [], _ :: _ => false
  | a :: as, b :: bs => a == b && starts_with_chars as bs

/-- Python `s.startswith(pat)`. -/
def starts_with (s pat : String) : Bool := starts_with_chars s.data pat.data

/-- Classification labels (module constants of the harness). -/
def LABEL_BUG_SWIFTMTP : String := "bug_swiftmtp"

def LABEL_BUG_LIBMTP : String := "bug_libmtp"

def LABEL_INTENTIONAL : String := "intentional"

def LABEL_QUIRK_NEEDED : String := "quirk_needed"

def LABEL_UNKNOWN : String := "unknown"

/-- `_ALL_LABELS`. -/
def ALL_LABELS : List String :=
  [LABEL_BUG_SWIFTMTP, LABEL_BUG_LIBMTP, LABEL_INTENTIONAL, LABEL_QUIRK_NEEDED, LABEL_UNKNOWN]

/-- An overlay entry's explicit label is drawn from the declared label
set, or empty/absent (falling back to the implied label or `unknown`). -/
def label_in_closed_set : Option String → Bool
  | none => true
  | some s => ALL_LABELS.contains s || s == ""

/-- The string stored under a storage dict's "description" key, used as
the sort key for storages (`key=lambda s: s.get("description", "")`). -/
def stor_desc (s : StorDict) : String :=
  match (alget s "description").getD (.pstr "") with
  | .pstr d => d
  | _ => ""

/-- Order on constructed storage dicts by description. -/
def storOrd : StorDict → StorDict → Prop := fun s t => str_le (stor_desc s) (stor_desc t) = true

instance : DecidableRel storOrd := fun s t => instDecidableEqBool _ true

/-- The device dict `_norm_lib` works on: `devices[0] if devices else {}`. -/
def norm_lib_dev (d : TopDict) : DevDict :=
  match alget d "devices" with
  | some (.devlist (x :: _)) => x
  | _ => []

/-- The storage list `_norm_lib` builds: description and capacity only
(`free_bytes` intentionally excluded), sorted by description. -/
def norm_lib_storages (d : TopDict) : List StorDict :=
  let storsRaw : List StorDict :=
    match alget (norm_lib_dev d) "storages" with
    | some (.storlist ss) => ss
    | _ => []
  List.insertionSort storOrd (storsRaw.map (fun s =>
    [("description", (alget s "description").getD (.pstr "")),
     ("capacity_bytes", (alget s "capacity_bytes").getD (.pint 0))]))

/-- `_norm_lib` (inner function of `_normalise_device`): map the parsed
`mtp-detect` output to the normalised device dict.  `serial` is omitted
and `free_bytes` is left out of the storage dicts, exactly as in the
source. -/
def norm_lib (d : TopDict) : DevDict :=
  [("manufacturer", (alget (norm_lib_dev d) "manufacturer").getD (.prim (.pstr ""))),
   ("model", (alget (norm_lib_dev d) "model").getD (.prim (.pstr ""))),
   ("firmware", (alget (norm_lib_dev d) "firmware").getD (.prim (.pstr ""))),
   ("friendly_name", (alget (norm_lib_dev d) "friendly_name").getD (.prim (.pstr ""))),
   ("storages", DVal.storlist (norm_lib_storages d))]

/-- The top-level probe mapping reused as the device dict when it has no
"device" key (`dev = d.get("device", d)`); nested list/object values
(which the probe decoder never places beside scalar device fields) carry
over only in their device-dict forms. -/
def top_to_dev (d : TopDict) : DevDict :=
  d.filterMap (fun p =>
    match p.2 with
    | .prim q => some (p.1, DVal.prim q)
    | .storlist ss => some (p.1, DVal.storlist ss)
    | _ => none)

/-- The device dict `_norm_swift` works on: `d.get("device", d)`. -/
def norm_swift_dev (d : TopDict) : DevDict :=
  match alget d "device" with
  | some (.devdict dd) => dd
  | some _ => []
  | none => top_to_dev d

/-- The storage list `_norm_swift` builds, with the source's alias
priority (description/name, capacityBytes/capacity_bytes), sorted by
description. -/
def norm_swift_storages (d : TopDict) : List StorDict :=
  let storsRaw : List StorDict :=
    match alget (norm_swift_dev d) "storages" with
    | some (.storlist ss) => ss
    | _ => []
  List.insertionSort storOrd (storsRaw.map (fun s =>
    [("description", (alget s "description").getD ((alget s "name").getD (.pstr ""))),
     ("capacity_bytes", (alget s "capacityBytes").getD ((alget s "capacity_bytes").getD (.pint 0)))]))

/-- `_norm_swift` (inner function of `_normalise_device`): map the decoded
`swiftmtp probe` JSON to the normalised device dict, resolving the
field-name aliases in the source's priority order. -/
def norm_swift (d : TopDict) : DevDict :=
  [("manufacturer", (alget (norm_swift_dev d) "manufacturer").getD (.prim (.pstr ""))),
   ("model", (alget (norm_swift_dev d) "model").getD
      ((alget (norm_swift_dev d) "friendlyName").getD (.prim (.pstr "")))),
   ("firmware", (alget (norm_swift_dev d) "firmwareVersion").getD
      ((alget (norm_swift_dev d) "firmware").getD (.prim (.pstr "")))),
   ("friendly_name", (alget (norm_swift_dev d) "friendlyName").getD
      ((alget (norm_swift_dev d) "friendly_name").getD (.prim (.pstr "")))),
   ("storages", DVal.storlist (norm_swift_storages d))]

/-- `_normalise_device`: comparable normalised device dicts for each side. -/
def normalise_device (libmtp_detect swiftmtp_probe : TopDict) : DevDict × DevDict :=
  (norm_lib libmtp_detect, norm_swift swiftmtp_probe)

/-- The normalised device record both normalisers degrade to on missing
or error-marker input: every field empty, no storages. -/
def zero_device : DevDict :=
  [("manufacturer", .prim (.pstr "")),
   ("model", .prim (.pstr "")),
   ("firmware", .prim (.pstr "")),
   ("friendly_name", .prim (.pstr "")),
   ("storages", DVal.storlist [])]

/-- A folder record parsed from `mtp-folders` output. -/
structure Folder where
  id : Nat
  parent_id : Nat
  name : String
deriving DecidableEq, Repr

/-- A file record parsed from `mtp-files` output (name, size and mtime
lines may be missing from the text output). -/
structure LibFile where
  id : Nat
  parent_id : Nat
  name : Option String
  size_bytes : Option Int
  mtime : Option Int
deriving DecidableEq, Repr

/-- A normalised canonical file entry ("path", "size_bytes", and "mtime"
only when present). -/
structure FileEntry where
  path : String
  size_bytes : Int
  mtime : Option Int
deriving DecidableEq, Repr

/-- A node of the `swiftmtp ls --json` tree: name, type tag, children
(consulted only for folders), with size and modification time already
coerced as `_swift_files` coerces them. -/
inductive SwiftItem where
  | mk (name ty : String) (children : List SwiftItem) (size_bytes : Int) (mtime : Option Int)

/-- `f"{parent}/{name}" if parent else name`. -/
def path_join (parent name : String) : String :=
  if parent = "" then name else parent ++ "/" ++ name

/-- Order on folders by id (`key=lambda f: f.get("id", 0)`). -/
def folderOrd : Folder → Folder → Prop := fun a b => a.id ≤ b.id

instance : DecidableRel folderOrd := fun a b => Nat.decLe a.id b.id

instance : IsTotal Folder folderOrd := ⟨fun a b => Nat.le_total a.id b.id⟩

instance : IsTrans Folder folderOrd := ⟨fun _ _ _ => Nat.le_trans⟩

/-- Order on file entries by path (`key=lambda x: x["path"]`). -/
def entryOrd : FileEntry → FileEntry → Prop := fun a b => str_le a.path b.path = true

instance : DecidableRel entryOrd := fun a b => instDecidableEqBool _ true

/-- The id → absolute-path map built from the libmtp folder list at the
top of `_normalise_files`: folders processed in ascending id order,
starting from `{0: ""}`; an unresolved parent contributes `""`. -/
def build_folder_map (libmtp_folders : List Folder) : List (Nat × String) :=
  (List.insertionSort folderOrd libmtp_folders).foldl
    (fun m f =>
      let parent := (alget m f.parent_id).getD ""
      alinsert m f.id (path_join parent f.name))
    [(0, "")]

/-- `_lib_files` (inner function of `_normalise_files`): resolve each
file's parent path through the folder map and sort by path. -/
def lib_files (libmtp_files : List LibFile) (folder_map : List (Nat × String)) : List FileEntry :=
  List.insertionSort entryOrd (libmtp_files.map (fun f =>
    let parent_path := (alget folder_map f.parent_id).getD ""
    { path := path_join parent_path (f.name.getD "")
      size_bytes := f.size_bytes.getD 0
      mtime := f.mtime }))

mutual

/-- `_flatten_tree`: recursively flatten the `swiftmtp ls` tree into file
entries carrying full paths; folder nodes contribute only their name to
descendants' paths and are never yielded themselves. -/
def flatten_tree : List SwiftItem → String → List FileEntry
  | [], _ => []
  | i :: rest, pfx => flatten_item i pfx ++ flatten_tree rest pfx

/-- One node of `_flatten_tree`'s walk (with `_swift_files`'s entry
assembly fused in for the yielded non-folder items). -/
def flatten_item : SwiftItem → String → List FileEntry
  | .mk name ty children sz mt, pfx =>
    let path := path_join pfx name
    if ty = "folder" then flatten_tree children path
    else [{ path := path, size_bytes := sz, mtime := mt }]

end

/-- `_swift_files` (inner function of `_normalise_files`): flatten the
tree and sort by path. -/
def swift_files (swiftmtp_ls : List SwiftItem) : List FileEntry :=
  List.insertionSort entryOrd (flatten_tree swiftmtp_ls "")

/-- `_normalise_files`: sorted, path-resolved file lists for each side. -/
def normalise_files (libmtp_files : List LibFile) (libmtp_folders : List Folder)
    (swiftmtp_ls : List SwiftItem) : List FileEntry × List FileEntry :=
  (lib_files libmtp_files (build_folder_map libmtp_folders), swift_files swiftmtp_ls)

/-- The value slot of a `DiffEntry`: a device-dict value, a whole file
entry, or Python `None` (represented as `.dval (.prim .pnone)`). -/
inductive DiffVal where
  | dval (v : DVal)
  | dfile (f : FileEntry)
deriving DecidableEq, Repr

/-- Python `None` in a diff value slot. -/
def dnone : DiffVal := .dval (.prim .pnone)

/-- An integer in a diff value slot. -/
def dint (n : Int) : DiffVal := .dval (.prim (.pint n))

/-- One normalised difference between the two toolchains, as constructed
by the `DiffEntry` class (label defaults to `unknown`, reason to `""`). -/
structure DiffEntry where
  key : String
  libmtp_val : DiffVal
  swiftmtp_val : DiffVal
  label : String
  reason : String
deriving DecidableEq, Repr

/-- `d.get(k)` on a device dict: Python `None` for a missing key. -/
def dev_get (d : DevDict) (k : String) : DVal :=
  (alget d k).getD (.prim .pnone)

/-- The key list of every dict `_normalise_device` produces. -/
def canonical_device_keys : List String :=
  ["manufacturer", "model", "firmware", "friendly_name", "storages"]

/-- `_diff_device`: iterate the sorted union of the two normalised device
dicts' keys and emit an entry wherever the values differ (`.get` yielding
`None` for a missing key). -/
def diff_device (norm_lib_dev norm_swift_dev : DevDict) : List DiffEntry :=
  let keys := List.insertionSort strOrd
    ((norm_lib_dev.map Prod.fst ++ norm_swift_dev.map Prod.fst).dedup)
  keys.filterMap (fun k =>
    let a := dev_get norm_lib_dev k
    let b := dev_get norm_swift_dev k
    if a ≠ b then some ⟨"device." ++ k, .dval a, .dval b, LABEL_UNKNOWN, ""⟩ else none)

/-- Lookup in the `{f["path"]: f}` dict comprehension: the last record
with the given path wins, as in Python dict building. -/
def path_map_get (fs : List FileEntry) (p : String) : Option FileEntry :=
  fs.reverse.find? (fun f => f.path == p)

/-- `_diff_files`: iterate the sorted union of paths; a path on one side
only yields a single whole-record entry against `None`; a path on both
sides is compared on `size_bytes` (strict) and `mtime` (only when both
sides carry one, within `ts_tol`). -/
def diff_files (lib_fs swift_fs : List FileEntry) (ts_tol : Int) : List DiffEntry :=
  let paths := List.insertionSort strOrd
    ((lib_fs.map FileEntry.path ++ swift_fs.map FileEntry.path).dedup)
  paths.flatMap (fun p =>
    match path_map_get lib_fs p, path_map_get swift_fs p with
    | none, none => []
    | none, some b => [⟨"file." ++ p, dnone, .dfile b, LABEL_UNKNOWN, ""⟩]
    | some a, none => [⟨"file." ++ p, .dfile a, dnone, LABEL_UNKNOWN, ""⟩]
    | some a, some b =>
      (if a.size_bytes ≠ b.size_bytes then
        [⟨"file." ++ p ++ ".size_bytes", dint a.size_bytes, dint b.size_bytes, LABEL_UNKNOWN, ""⟩]
      else []) ++
      (match a.mtime, b.mtime with
       | some am, some bm =>
         if |am - bm| > ts_tol then
           [⟨"file." ++ p ++ ".mtime", dint am, dint bm, LABEL_UNKNOWN, ""⟩]
         else []
       | _, _ => []))

/-- One entry of an expectation-overlay section (`key`, optional `label`,
optional `reason` defaulting to `""`). -/
structure OverlayEntry where
  key : String
  label : Option String
  reason : String
deriving DecidableEq, Repr

/-- A loaded expectation overlay: the three ordered pattern sections and
the optional `tolerances.timestamp_seconds` override. -/
structure Overlay where
  intentional_differences : List OverlayEntry
  quirk_needed : List OverlayEntry
  known_bugs : List OverlayEntry
  tolerance_timestamp_seconds : Option Int
deriving DecidableEq, Repr

/-- `lbl = entry.get("label", implied) or LABEL_UNKNOWN` together with
`reason = entry.get("reason", "")`. -/
def entry_label_reason (e : OverlayEntry) (implied : Option String) : String × String :=
  let lbl := match e.label with
    | some s => s
    | none => implied.getD ""
  (if lbl = "" then LABEL_UNKNOWN else lbl, e.reason)

/-- `_build_map` (inner function of `_classify_diffs`): dict from key
pattern to (label, reason) for one section; entries with a falsy key are
skipped; `implied` is the section's implied label (`None` for
`known_bugs`). -/
def build_map (entries : List OverlayEntry) (implied : Option String) :
    List (String × (String × String)) :=
  entries.foldl
    (fun acc e => if e.key = "" then acc else alinsert acc e.key (entry_label_reason e implied))
    []

/-- The `{**a, **b}` dict merge: `b`'s items assigned over `a`. -/
def dict_merge (a b : List (String × (String × String))) : List (String × (String × String)) :=
  b.foldl (fun acc p => alinsert acc p.1 p.2) a

/-- `diff.key == pattern or diff.key.startswith(pattern + ".")`. -/
def match_key (key pat : String) : Bool :=
  key == pat || starts_with key (pat ++ ".")

/-- The inner loop of `_classify_diffs` for one entry: the first pattern
of `all_patterns` matching the key sets label and reason, then matching
stops; an unmatched entry is left unchanged. -/
def classify_one (all_patterns : List (String × (String × String))) (d : DiffEntry) : DiffEntry :=
  match all_patterns.find? (fun p => match_key d.key p.1) with
  | some p => { d with label := p.2.1, reason := p.2.2 }
  | none => d

/-- `_classify_diffs`: build the three section maps, merge them with
`{**intentional, **quirk, **bugs}`, and label each diff by its first
matching pattern. -/
def classify_diffs (diffs : List DiffEntry) (expectations : Overlay) : List DiffEntry :=
  let intentional := build_map expectations.intentional_differences (some LABEL_INTENTIONAL)
  let quirk := build_map expectations.quirk_needed (some LABEL_QUIRK_NEEDED)
  let bugs := build_map expectations.known_bugs none
  let all_patterns := dict_merge (dict_merge intentional quirk) bugs
  diffs.map (classify_one all_patterns)

/-- `_summary_counts`: counts per label, initialised at 0 for the five
declared labels and incremented per entry (any other label value gains a
fresh key). -/
def summary_counts (diffs : List DiffEntry) : List (String × Nat) :=
  diffs.foldl
    (fun counts d => alinsert counts d.label ((alget counts d.label).getD 0 + 1))
    (ALL_LABELS.map (fun lbl => (lbl, 0)))

/-- The tolerance resolution in `main`: `ts_tol = args.ts_tolerance`,
overridden verbatim by `tolerances.timestamp_seconds` when the overlay
declares one. -/
def resolve_ts_tol (arg_ts_tolerance : Int) (expectations : Overlay) : Int :=
  match expectations.tolerance_timestamp_seconds with
  | some t => t
  | none => arg_ts_tolerance

/-- The normalise → diff → classify core of `main`: device diffs followed
by file diffs, classified against the overlay, with the resolved
timestamp tolerance. -/
def pipeline_diffs (libmtp_detect swiftmtp_probe : TopDict) (libmtp_files : List LibFile)
    (libmtp_folders : List Folder) (swiftmtp_ls : List SwiftItem)
    (arg_ts_tolerance : Int) (expectations : Overlay) : List DiffEntry :=
  let ts_tol := resolve_ts_tol arg_ts_tolerance expectations
  let nd := normalise_device libmtp_detect swiftmtp_probe
  let nf := normalise_files libmtp_files libmtp_folders swiftmtp_ls
  classify_diffs (diff_device nd.1 nd.2 ++ diff_files nf.1 nf.2 ts_tol) expectations

/-- Modelled from the spec (§4.3 matching rule), for comparison with
`classify_diffs`: scan the sections in fixed precedence (intentional,
then needs-followup, then known-defect), within a section in declaration
order; the first matching pattern wins and matching stops; unmatched
entries stay unchanged. -/
def classify_spec (diffs : List DiffEntry) (expectations : Overlay) : List DiffEntry :=
  diffs.map (fun d =>
    match expectations.intentional_differences.find? (fun e => match_key d.key e.key) with
    | some e =>
      { d with label := (entry_label_reason e (some LABEL_INTENTIONAL)).1
               reason := (entry_label_reason e (some LABEL_INTENTIONAL)).2 }
    | none =>
      match expectations.quirk_needed.find? (fun e => match_key d.key e.key) with
      | some e =>
        { d with label := (entry_label_reason e (some LABEL_QUIRK_NEEDED)).1
                 reason := (entry_label_reason e (some LABEL_QUIRK_NEEDED)).2 }
      | none =>
        match expectations.known_bugs.find? (fun e => match_key d.key e.key) with
        | some e =>
          { d with label := (entry_label_reason e none).1
                   reason := (entry_label_reason e none).2 }
        | none => d)

/-- Modelled from the spec (§4.1 path resolution), for comparison with
`build_folder_map`: the slash-joined path of a folder's parent chain from
the root id 0; a folder absent from the folder list contributes `""` (so
a child of an unresolvable parent degrades to its bare name).  `fuel`
bounds the chain length; any `fuel ≥ fid` is exact when every folder's id
exceeds its parent's. -/
def chain_path (folders : List Folder) : Nat → Nat → String
  | _, 0 => ""
  | 0, _ => ""
  | fuel + 1, fid =>
    match folders.find? (fun f => f.id == fid) with
    | none => ""
    | some f => path_join (chain_path folders fuel f.parent_id) f.name

/-! ## Association-list lemmas -/

theorem aux_alget_nil {κ α : Type} [BEq κ] (k : κ) : alget ([] : List (κ × α)) k = none := rfl

theorem aux_alget_cons {κ α : Type} [BEq κ] (p : κ × α) (l : List (κ × α)) (k : κ) :
    alget (p :: l) k = if p.1 == k then some p.2 else alget l k := by
  simp only [alget, List.find?]
  cases h : p.1 == k <;> simp [h]

theorem aux_alget_append {κ α : Type} [BEq κ] (l₁ l₂ : List (κ × α)) (k : κ) :
    alget (l₁ ++ l₂) k = (alget (l₁ : List (κ × α)) k).or (alget l₂ k) := by
  simp only [alget, List.find?_append]
  cases List.find? (fun p => p.1 == k) l₁ <;> simp

theorem aux_alget_map_ne {κ α : Type} [BEq κ] [LawfulBEq κ] (m : List (κ × α)) (k j : κ) (v : α)
    (hne : j ≠ k) :
    alget (m.map (fun p => if p.1 == k then (k, v) else p)) j = alget m j := by
  induction m with
  | nil => rfl
  | cons p m ih =>
    have h2 : (k == j) = false := by
      simp only [beq_eq_false_iff_ne]
      exact fun h => hne h.symm
    by_cases hpk : p.1 = k
    · have h1 : (p.1 == k) = true := by simp [hpk]
      have h3 : (p.1 == j) = false := by rw [hpk]; exact h2
      simp only [List.map_cons, h1, if_true, aux_alget_cons, h2, h3, Bool.false_eq_true,
        if_false, ih]
    · have h1 : (p.1 == k) = false := by simp [hpk]
      simp only [List.map_cons, h1, Bool.false_eq_true, if_false, aux_alget_cons]
      cases h : p.1 == j <;> simp [h, ih]

theorem aux_alget_map_self {κ α : Type} [BEq κ] [LawfulBEq κ] (m : List (κ × α)) (k : κ) (v : α)
    (hk : m.any (fun p => p.1 == k) = true) :
    alget (m.map (fun p => if p.1 == k then (k, v) else p)) k = some v := by
  induction m with
  | nil => simp at hk
  | cons p m ih =>
    by_cases hpk : p.1 = k
    · have h1 : (p.1 == k) = true := by simp [hpk]
      simp [List.map_cons, h1, aux_alget_cons]
    · have h1 : (p.1 == k) = false := by simp [hpk]
      have hk' : m.any (fun p => p.1 == k) = true := by
        simp only [List.any_cons, h1, Bool.false_or] at hk
        exact hk
      simp [List.map_cons, h1, aux_alget_cons, ih hk']

theorem aux_alget_not_mem {κ α : Type} [BEq κ] [LawfulBEq κ] (m : List (κ × α)) (k : κ)
    (h : k ∉ m.map Prod.fst) : alget m k = none := by
  induction m with
  | nil => rfl
  | cons p m ih =>
    simp only [List.map_cons, List.mem_cons, not_or] at h
    have h1 : (p.1 == k) = false := by
      simp only [beq_eq_false_iff_ne]
      exact fun hh => h.1 hh.symm
    rw [aux_alget_cons, if_neg (by simp [h1])]
    exact ih h.2

theorem aux_alget_mem {κ α : Type} [BEq κ] [LawfulBEq κ] (m : List (κ × α)) (k : κ)
    (h : k ∈ m.map Prod.fst) : m.any (fun p => p.1 == k) = true := by
  rcases List.mem_map.1 h with ⟨p, hp, hk⟩
  exact List.any_eq_true.2 ⟨p, hp, by simp [hk]⟩

theorem aux_alinsert_of_not_mem {κ α : Type} [BEq κ] [LawfulBEq κ]
    (m : List (κ × α)) (k : κ) (v : α) (h : k ∉ m.map Prod.fst) :
    alinsert m k v = m ++ [(k, v)] := by
  have hany : m.any (fun p => p.1 == k) = false := by
    cases hc : m.any (fun p => p.1 == k) with
    | false => rfl
    | true =>
      rcases List.any_eq_true.1 hc with ⟨p, hp, hpk⟩
      exact absurd (List.mem_map.2 ⟨p, hp, by simpa using hpk⟩) h
  simp [alinsert, hany]

theorem aux_alget_alinsert {κ α : Type} [BEq κ] [LawfulBEq κ] [DecidableEq κ]
    (m : List (κ × α)) (k j : κ) (v : α) :
    alget (alinsert m k v) j = if j = k then some v else alget m j := by
  by_cases hk : k ∈ m.map Prod.fst
  · have hany := aux_alget_mem m k hk
    by_cases hj : j = k
    · subst hj
      simp only [alinsert, hany, if_true, if_pos rfl]
      exact aux_alget_map_self m j v hany
    · simp only [alinsert, hany, if_true, if_neg hj]
      exact aux_alget_map_ne m k j v hj
  · rw [aux_alinsert_of_not_mem m k v hk, aux_alget_append]
    by_cases hj : j = k
    · subst hj
      rw [aux_alget_not_mem m j hk]
      simp [aux_alget_cons]
    · have h2 : (k == j) = false := by
        simp only [beq_eq_false_iff_ne]
        exact fun hh => hj hh.symm
      simp only [if_neg hj, aux_alget_cons, h2, Bool.false_eq_true, if_false, aux_alget_nil]
      cases alget m j <;> simp

theorem aux_keys_alinsert_mem {κ α : Type} [BEq κ] [LawfulBEq κ]
    (m : List (κ × α)) (k : κ) (v : α) (h : k ∈ m.map Prod.fst) :
    (alinsert m k v).map Prod.fst = m.map Prod.fst := by
  have hany := aux_alget_mem m k h
  simp only [alinsert, hany, if_true, List.map_map]
  apply List.map_congr_left
  intro p _
  by_cases hpk : p.1 = k <;> simp [hpk]

theorem aux_mem_alinsert {κ α : Type} [BEq κ] [LawfulBEq κ]
    (m : List (κ × α)) (k : κ) (v : α) (p : κ × α) (h : p ∈ alinsert m k v) :
    p = (k, v) ∨ p ∈ m := by
  by_cases hany : m.any (fun q => q.1 == k) = true
  · simp only [alinsert, hany, if_true] at h
    rcases List.mem_map.1 h with ⟨q, hq, hqe⟩
    by_cases hqk : q.1 = k
    · simp [hqk] at hqe
      exact Or.inl hqe.symm
    · simp [hqk] at hqe
      exact Or.inr (hqe ▸ hq)
  · rw [Bool.not_eq_true] at hany
    simp only [alinsert, hany, Bool.false_eq_true, if_false, List.mem_append,
      List.mem_singleton] at h
    exact h.symm.imp id id

/-! ## Diff-engine lemmas -/

theorem aux_mem_insertionSort {α : Type} (r : α → α → Prop) [DecidableRel r] (l : List α)
    (a : α) : a ∈ List.insertionSort r l ↔ a ∈ l :=
  (List.perm_insertionSort r l).mem_iff

theorem aux_mem_diff_device (a b : DevDict) (e : DiffEntry) :
    e ∈ diff_device a b ↔ ∃ k, (k ∈ a.map Prod.fst ∨ k ∈ b.map Prod.fst) ∧
      dev_get a k ≠ dev_get b k ∧
      e = ⟨"device." ++ k, .dval (dev_get a k), .dval (dev_get b k), LABEL_UNKNOWN, ""⟩ := by
  simp only [diff_device, List.mem_filterMap, aux_mem_insertionSort,
    List.mem_dedup, List.mem_append]
  constructor
  · rintro ⟨k, hk, hfk⟩
    by_cases hne : dev_get a k = dev_get b k
    · simp [hne] at hfk
    · rw [if_pos hne] at hfk
      exact ⟨k, hk, hne, (Option.some_inj.1 hfk).symm⟩
  · rintro ⟨k, hk, hne, he⟩
    exact ⟨k, hk, by rw [if_pos hne, he]⟩

theorem aux_key_mtime_ne_size (p : String) :
    ("file." ++ p ++ ".mtime" : String) ≠ "file." ++ p ++ ".size_bytes" := by
  intro h
  have := congrArg String.length h
  have e1 : (".mtime" : String).length = 6 := rfl
  have e2 : (".size_bytes" : String).length = 11 := rfl
  simp only [String.length_append, e1, e2] at this
  omega

theorem aux_path_map_get_self (a : FileEntry) : path_map_get [a] a.path = some a := by
  simp [path_map_get]

theorem aux_diff_files_pair (a b : FileEntry) (tol : Int) (hp : b.path = a.path) :
    diff_files [a] [b] tol =
      (if a.size_bytes ≠ b.size_bytes then
        [⟨"file." ++ a.path ++ ".size_bytes", dint a.size_bytes, dint b.size_bytes,
          LABEL_UNKNOWN, ""⟩]
      else []) ++
      (match a.mtime, b.mtime with
       | some am, some bm =>
         if |am - bm| > tol then
           [⟨"file." ++ a.path ++ ".mtime", dint am, dint bm, LABEL_UNKNOWN, ""⟩]
         else []
       | _, _ => []) := by
  have hdedup : ([a.path] ++ [a.path]).dedup = [a.path] := by
    simp [List.dedup_cons_of_mem]
  have hget : path_map_get [b] a.path = some b := by
    rw [← hp]; exact aux_path_map_get_self b
  simp only [diff_files, List.map, hp, hdedup, List.insertionSort, List.orderedInsert,
    List.flatMap_cons, List.flatMap_nil, List.append_nil,
    aux_path_map_get_self a, hget]

/-- C3: for same-path records both carrying an mtime and a non-negative
tolerance `tol`, an absolute mtime difference of exactly `tol` yields no
mtime Diff Entry, a difference of `tol + 1` yields one, and tolerance 0
flags exactly the non-equal mtimes. -/
theorem c3_timestamp_tolerance_boundary (p : String) (sa sb am bm tol : Int)
    (htol : 0 ≤ tol) :
    (|am - bm| = tol →
      (⟨"file." ++ p ++ ".mtime", dint am, dint bm, LABEL_UNKNOWN, ""⟩ : DiffEntry) ∉
        diff_files [⟨p, sa, some am⟩] [⟨p, sb, some bm⟩] tol) ∧
    (|am - bm| = tol + 1 →
      (⟨"file." ++ p ++ ".mtime", dint am, dint bm, LABEL_UNKNOWN, ""⟩ : DiffEntry) ∈
        diff_files [⟨p, sa, some am⟩] [⟨p, sb, some bm⟩] tol) ∧
    (tol = 0 →
      ((⟨"file." ++ p ++ ".mtime", dint am, dint bm, LABEL_UNKNOWN, ""⟩ : DiffEntry) ∈
        diff_files [⟨p, sa, some am⟩] [⟨p, sb, some bm⟩] tol ↔ am ≠ bm)) := by
  rw [aux_diff_files_pair ⟨p, sa, some am⟩ ⟨p, sb, some bm⟩ tol rfl]
  have hkey : ∀ l : List DiffEntry,
      (⟨"file." ++ p ++ ".mtime", dint am, dint bm, LABEL_UNKNOWN, ""⟩ : DiffEntry) ∈
        (if (⟨p, sa, some am⟩ : FileEntry).size_bytes ≠ (⟨p, sb, some bm⟩ : FileEntry).size_bytes
          then [⟨"file." ++ p ++ ".size_bytes", dint sa, dint sb, LABEL_UNKNOWN, ""⟩] else []) ++ l ↔
      (⟨"file." ++ p ++ ".mtime", dint am, dint bm, LABEL_UNKNOWN, ""⟩ : DiffEntry) ∈ l := by
    intro l
    constructor
    · intro h
      rcases List.mem_append.1 h with h | h
      · exfalso
        by_cases hs : sa = sb
        · simp [hs] at h
        · simp only [ne_eq, hs, not_false_iff, if_true, List.mem_singleton] at h
          exact aux_key_mtime_ne_size p (congrArg DiffEntry.key h)
      · exact h
    · intro h
      exact List.mem_append.2 (Or.inr h)
  refine ⟨?_, ?_, ?_⟩
  · intro habs hmem
    rw [hkey] at hmem
    have : ¬ (|am - bm| > tol) := by omega
    simp only [this, if_false] at hmem
    simp at hmem
  · intro habs
    rw [hkey]
    have : |am - bm| > tol := by omega
    simp [this]
  · intro h0
    rw [hkey]
    subst h0
    constructor
    · intro hmem
      by_cases hgt : |am - bm| > 0
      · intro he; subst he; simp at hgt
      · simp [hgt] at hmem
    · intro hne
      have : |am - bm| > 0 := abs_pos.2 (sub_ne_zero.2 hne)
      simp [this]

/-- Witness for C3 at a concrete input. -/
theorem c3_timestamp_tolerance_boundary_witness :
    (⟨"file.a.mtime", dint 100, dint 104, LABEL_UNKNOWN, ""⟩ : DiffEntry) ∈
      diff_files [⟨"a", 1, some 100⟩] [⟨"a", 1, some 104⟩] 3 :=
  (c3_timestamp_tolerance_boundary "a" 1 1 100 104 3 (by decide)).2.1 (by decide)

/-! ## Normaliser field lemmas -/

theorem aux_norm_lib_get_storages (d : TopDict) :
    dev_get (norm_lib d) "storages" = .storlist (norm_lib_storages d) := rfl

theorem aux_norm_swift_get_storages (d : TopDict) :
    dev_get (norm_swift d) "storages" = .storlist (norm_swift_storages d) := rfl

theorem aux_norm_lib_keys (d : TopDict) :
    (norm_lib d).map Prod.fst = canonical_device_keys := rfl

theorem aux_norm_swift_keys (d : TopDict) :
    (norm_swift d).map Prod.fst = canonical_device_keys := rfl

theorem aux_norm_lib_storages_keys (d : TopDict) :
    ∀ s ∈ norm_lib_storages d, s.map Prod.fst = ["description", "capacity_bytes"] := by
  intro s hs
  rw [norm_lib_storages, aux_mem_insertionSort] at hs
  rcases List.mem_map.1 hs with ⟨raw, _, heq⟩
  rw [← heq]
  rfl

theorem aux_norm_swift_storages_keys (d : TopDict) :
    ∀ s ∈ norm_swift_storages d, s.map Prod.fst = ["description", "capacity_bytes"] := by
  intro s hs
  rw [norm_swift_storages, aux_mem_insertionSort] at hs
  rcases List.mem_map.1 hs with ⟨raw, _, heq⟩
  rw [← heq]
  rfl

/-- C4: the excluded fields (device serial number, storage free space)
never appear in either normalised device record — whose keys are exactly
the canonical ones, with storage dicts holding only description and
capacity — and hence never as the key of any emitted device Diff Entry,
whatever the raw records contain. -/
theorem c4_exclusion_guarantee (rawLib rawSwift : TopDict) :
    (normalise_device rawLib rawSwift).1.map Prod.fst = canonical_device_keys ∧
    (normalise_device rawLib rawSwift).2.map Prod.fst = canonical_device_keys ∧
    (∀ ss, dev_get (normalise_device rawLib rawSwift).1 "storages" = .storlist ss →
      ∀ s ∈ ss, s.map Prod.fst = ["description", "capacity_bytes"]) ∧
    (∀ ss, dev_get (normalise_device rawLib rawSwift).2 "storages" = .storlist ss →
      ∀ s ∈ ss, s.map Prod.fst = ["description", "capacity_bytes"]) ∧
    (∀ e ∈ diff_device (normalise_device rawLib rawSwift).1 (normalise_device rawLib rawSwift).2,
      e.key ∈ canonical_device_keys.map (fun k => "device." ++ k)) ∧
    "device.serial" ∉ canonical_device_keys.map (fun k => "device." ++ k) ∧
    "device.free_bytes" ∉ canonical_device_keys.map (fun k => "device." ++ k) := by
  refine ⟨aux_norm_lib_keys rawLib, aux_norm_swift_keys rawSwift, ?_, ?_, ?_, ?_, ?_⟩
  · intro ss hss
    rw [show (normalise_device rawLib rawSwift).1 = norm_lib rawLib from rfl,
      aux_norm_lib_get_storages] at hss
    cases hss
    exact aux_norm_lib_storages_keys rawLib
  · intro ss hss
    rw [show (normalise_device rawLib rawSwift).2 = norm_swift rawSwift from rfl,
      aux_norm_swift_get_storages] at hss
    cases hss
    exact aux_norm_swift_storages_keys rawSwift
  · intro e he
    rcases (aux_mem_diff_device _ _ e).1 he with ⟨k, hk, _, hke⟩
    have hkc : k ∈ canonical_device_keys := by
      rcases hk with hk | hk
      · rw [show (normalise_device rawLib rawSwift).1 = norm_lib rawLib from rfl,
          aux_norm_lib_keys] at hk
        exact hk
      · rw [show (normalise_device rawLib rawSwift).2 = norm_swift rawSwift from rfl,
          aux_norm_swift_keys] at hk
        exact hk
    rw [hke]
    exact List.mem_map.2 ⟨k, hkc, rfl⟩
  · decide
  · decide

/-- Witness for C4 at concrete raw records disagreeing on the excluded
serial and free-space fields. -/
theorem c4_exclusion_guarantee_witness :
    (⟨"device.model", .dval (.prim (.pstr "A")), .dval (.prim (.pstr "B")), LABEL_UNKNOWN, ""⟩ :
        DiffEntry) ∈
      diff_device
        (normalise_device
          [("devices", .devlist [[("model", .prim (.pstr "A")), ("serial", .prim (.pstr "S1")),
            ("storages", .storlist [[("description", .pstr "int"), ("capacity_bytes", .pint 64),
              ("free_bytes", .pint 10)]])]])]
          [("device", .devdict [("model", .prim (.pstr "B")), ("serial", .prim (.pstr "S2")),
            ("storages", .storlist [[("description", .pstr "int"), ("capacityBytes", .pint 64),
              ("free_bytes", .pint 99)]])])]).1
        (normalise_device
          [("devices", .devlist [[("model", .prim (.pstr "A")), ("serial", .prim (.pstr "S1")),
            ("storages", .storlist [[("description", .pstr "int"), ("capacity_bytes", .pint 64),
              ("free_bytes", .pint 10)]])]])]
          [("device", .devdict [("model", .prim (.pstr "B")), ("serial", .prim (.pstr "S2")),
            ("storages", .storlist [[("description", .pstr "int"), ("capacityBytes", .pint 64),
              ("free_bytes", .pint 99)]])])]).2 ∧
    (⟨"device.model", .dval (.prim (.pstr "A")), .dval (.prim (.pstr "B")), LABEL_UNKNOWN, ""⟩ :
        DiffEntry).key ∈ canonical_device_keys.map (fun k => "device." ++ k) := by
  constructor
  · decide
  · exact (c4_exclusion_guarantee
      [("devices", .devlist [[("model", .prim (.pstr "A")), ("serial", .prim (.pstr "S1")),
        ("storages", .storlist [[("description", .pstr "int"), ("capacity_bytes", .pint 64),
          ("free_bytes", .pint 10)]])]])]
      [("device", .devdict [("model", .prim (.pstr "B")), ("serial", .prim (.pstr "S2")),
        ("storages", .storlist [[("description", .pstr "int"), ("capacityBytes", .pint 64),
          ("free_bytes", .pint 99)]])])]).2.2.2.2.1 _ (by decide)

/-! ## Missing-data degradation -/

theorem aux_top_to_dev_keys_sub (d : TopDict) (k : String)
    (h : k ∈ (top_to_dev d).map Prod.fst) : k ∈ d.map Prod.fst := by
  rcases List.mem_map.1 h with ⟨q, hq, hk⟩
  rcases List.mem_filterMap.1 hq with ⟨p, hp, hpq⟩
  have : q.1 = p.1 := by
    cases hv : p.2 <;> rw [hv] at hpq <;> simp at hpq <;> simp [← hpq]
  exact List.mem_map.2 ⟨p, hp, by rw [← this, hk]⟩

theorem aux_zero_device_keys : zero_device.map Prod.fst = canonical_device_keys := rfl

/-- C5: an absent or error-marker raw record on either side normalises to
the zero-value canonical device instead of failing, and each canonical
field on which the other side differs from that zero value becomes an
ordinary device Diff Entry against the absence. -/
theorem c5_missing_data_degradation :
    (∀ d : TopDict, (alget d "devices" = none ∨ alget d "devices" = some (.devlist [])) →
      norm_lib d = zero_device) ∧
    (∀ d : TopDict, (∀ k ∈ d.map Prod.fst, k = "error" ∨ k = "raw") →
      norm_swift d = zero_device) ∧
    (∀ (r : TopDict) (k : String), k ∈ canonical_device_keys →
      dev_get (norm_swift r) k ≠ dev_get zero_device k →
      (⟨"device." ++ k, .dval (dev_get zero_device k), .dval (dev_get (norm_swift r) k),
        LABEL_UNKNOWN, ""⟩ : DiffEntry) ∈ diff_device zero_device (norm_swift r)) ∧
    (∀ (r : TopDict) (k : String), k ∈ canonical_device_keys →
      dev_get (norm_lib r) k ≠ dev_get zero_device k →
      (⟨"device." ++ k, .dval (dev_get (norm_lib r) k), .dval (dev_get zero_device k),
        LABEL_UNKNOWN, ""⟩ : DiffEntry) ∈ diff_device (norm_lib r) zero_device) := by
  refine ⟨?_, ?_, ?_, ?_⟩
  · intro d h
    have hdev : norm_lib_dev d = [] := by
      rcases h with h | h <;> simp [norm_lib_dev, h]
    simp [norm_lib, norm_lib_storages, hdev, zero_device, aux_alget_nil,
      List.insertionSort]
  · intro d h
    have hno : ∀ k : String, k ≠ "error" → k ≠ "raw" → k ∉ d.map Prod.fst := by
      intro k h1 h2 hk
      rcases h k hk with hh | hh
      · exact h1 hh
      · exact h2 hh
    have hdev : norm_swift_dev d = top_to_dev d := by
      rw [norm_swift_dev, aux_alget_not_mem d "device" (hno "device" (by decide) (by decide))]
    have hget : ∀ k : String, k ≠ "error" → k ≠ "raw" →
        alget (norm_swift_dev d) k = (none : Option DVal) := by
      intro k h1 h2
      rw [hdev]
      exact aux_alget_not_mem _ k
        (fun hk => hno k h1 h2 (aux_top_to_dev_keys_sub d k hk))
    simp [norm_swift, norm_swift_storages, zero_device,
      hget "manufacturer" (by decide) (by decide),
      hget "model" (by decide) (by decide),
      hget "friendlyName" (by decide) (by decide),
      hget "firmware" (by decide) (by decide),
      hget "firmwareVersion" (by decide) (by decide),
      hget "friendly_name" (by decide) (by decide),
      hget "storages" (by decide) (by decide),
      List.insertionSort]
  · intro r k hk hne
    exact (aux_mem_diff_device zero_device (norm_swift r) _).2
      ⟨k, Or.inl (by rw [aux_zero_device_keys]; exact hk), fun h => hne h.symm, by rw [show dev_get zero_device k = dev_get zero_device k from rfl]⟩
  · intro r k hk hne
    exact (aux_mem_diff_device (norm_lib r) zero_device _).2
      ⟨k, Or.inr (by rw [aux_zero_device_keys]; exact hk), hne, rfl⟩

/-- Witness for C5: a missing libmtp record degrades to the zero device
and the present swift-side model field becomes a diff against absence. -/
theorem c5_missing_data_degradation_witness :
    norm_lib [("error", .prim (.pstr "mtp-detect not found"))] = zero_device ∧
    (⟨"device.model", .dval (dev_get zero_device "model"),
      .dval (dev_get (norm_swift [("device", .devdict [("model", .prim (.pstr "Pixel"))])]) "model"),
      LABEL_UNKNOWN, ""⟩ : DiffEntry) ∈
      diff_device zero_device
        (norm_swift [("device", .devdict [("model", .prim (.pstr "Pixel"))])]) :=
  ⟨c5_missing_data_degradation.1 _ (Or.inl (by decide)),
   c5_missing_data_degradation.2.2.1
     [("device", .devdict [("model", .prim (.pstr "Pixel"))])] "model"
     (by decide) (by decide)⟩

/-! ## Symmetry of absence -/

theorem aux_path_map_get_mem (fs : List FileEntry) (p : String) (a : FileEntry)
    (h : path_map_get fs p = some a) : a ∈ fs ∧ a.path = p := by
  have hmem := List.mem_of_find?_eq_some h
  have hpred := List.find?_some h
  rw [List.mem_reverse] at hmem
  exact ⟨hmem, by simpa using hpred⟩

theorem aux_mem_diff_files_lib_only (lf sf : List FileEntry) (tol : Int) (p : String)
    (a : FileEntry) (ha : path_map_get lf p = some a) (hb : path_map_get sf p = none) :
    (⟨"file." ++ p, .dfile a, dnone, LABEL_UNKNOWN, ""⟩ : DiffEntry) ∈ diff_files lf sf tol := by
  have hp : p ∈ lf.map FileEntry.path := by
    rcases aux_path_map_get_mem lf p a ha with ⟨hm, hpa⟩
    exact List.mem_map.2 ⟨a, hm, hpa⟩
  simp only [diff_files]
  refine List.mem_flatMap.2 ⟨p,
    (aux_mem_insertionSort _ _ p).2 (List.mem_dedup.2 (List.mem_append.2 (Or.inl hp))), ?_⟩
  rw [ha, hb]
  simp

theorem aux_mem_diff_files_swift_only (lf sf : List FileEntry) (tol : Int) (p : String)
    (b : FileEntry) (ha : path_map_get lf p = none) (hb : path_map_get sf p = some b) :
    (⟨"file." ++ p, dnone, .dfile b, LABEL_UNKNOWN, ""⟩ : DiffEntry) ∈ diff_files lf sf tol := by
  have hp : p ∈ sf.map FileEntry.path := by
    rcases aux_path_map_get_mem sf p b hb with ⟨hm, hpb⟩
    exact List.mem_map.2 ⟨b, hm, hpb⟩
  simp only [diff_files]
  refine List.mem_flatMap.2 ⟨p,
    (aux_mem_insertionSort _ _ p).2 (List.mem_dedup.2 (List.mem_append.2 (Or.inr hp))), ?_⟩
  rw [ha, hb]
  simp

theorem aux_diff_files_not_both_none (lf sf : List FileEntry) (tol : Int) (e : DiffEntry)
    (he : e ∈ diff_files lf sf tol) :
    ¬ (e.libmtp_val = dnone ∧ e.swiftmtp_val = dnone) := by
  simp only [diff_files] at he
  rcases List.mem_flatMap.1 he with ⟨p, -, hfe⟩
  rcases hl : path_map_get lf p with _ | a <;> rcases hs : path_map_get sf p with _ | b <;>
    rw [hl, hs] at hfe
  · simp at hfe
  · simp only [List.mem_singleton] at hfe
    rw [hfe]
    rintro ⟨-, hsv⟩
    simp [dnone] at hsv
  · simp only [List.mem_singleton] at hfe
    rw [hfe]
    rintro ⟨hlv, -⟩
    simp [dnone] at hlv
  · rcases List.mem_append.1 hfe with hfe | hfe
    · by_cases hsz : a.size_bytes = b.size_bytes
      · simp [hsz] at hfe
      · simp only [ne_eq, hsz, not_false_iff, if_true, List.mem_singleton] at hfe
        rw [hfe]
        rintro ⟨hlv, -⟩
        simp [dnone, dint] at hlv
    · rcases hma : a.mtime with _ | am <;> rcases hmb : b.mtime with _ | bm <;>
        rw [hma, hmb] at hfe
      · simp at hfe
      · simp at hfe
      · simp at hfe
      · by_cases hgt : |am - bm| > tol
        · simp only [hgt, if_true, List.mem_singleton] at hfe
          rw [hfe]
          rintro ⟨hlv, -⟩
          simp [dnone, dint] at hlv
        · simp [hgt] at hfe

theorem aux_diff_device_not_both_none (a b : DevDict) (e : DiffEntry)
    (he : e ∈ diff_device a b) :
    ¬ (e.libmtp_val = dnone ∧ e.swiftmtp_val = dnone) := by
  rcases (aux_mem_diff_device a b e).1 he with ⟨k, -, hne, hke⟩
  rw [hke]
  rintro ⟨hlv, hsv⟩
  simp only [dnone, DiffVal.dval.injEq] at hlv hsv
  exact hne (hlv.trans hsv.symm)

/-- C2 counterexample: with the same path on both sides, an mtime present
only on the libmtp side yields no Diff Entry at all, although the claim
requires one carrying the present value and an absent marker. -/
theorem c2_counterexample :
    diff_files [⟨"a", 1, some 100⟩] [⟨"a", 1, none⟩] 0 = [] ∧
    (⟨"a", 1, some 100⟩ : FileEntry).mtime ≠ none := by
  constructor
  · decide
  · decide

/-- C2 amended: no Diff Entry ever has both values absent, and one-sided
presence of a file path (or of a device field) does yield an entry with
the present value against an absent marker; but same-path file records
are compared only on `size_bytes` and on `mtime` when both sides carry
one, so a one-sided mtime produces no Diff Entry. -/
theorem c2_symmetry_of_absence_amended :
    (∀ (lf sf : List FileEntry) (tol : Int) (e : DiffEntry), e ∈ diff_files lf sf tol →
      ¬ (e.libmtp_val = dnone ∧ e.swiftmtp_val = dnone)) ∧
    (∀ (a b : DevDict) (e : DiffEntry), e ∈ diff_device a b →
      ¬ (e.libmtp_val = dnone ∧ e.swiftmtp_val = dnone)) ∧
    (∀ (lf sf : List FileEntry) (tol : Int) (p : String) (a : FileEntry),
      path_map_get lf p = some a → path_map_get sf p = none →
      (⟨"file." ++ p, .dfile a, dnone, LABEL_UNKNOWN, ""⟩ : DiffEntry) ∈ diff_files lf sf tol) ∧
    (∀ (lf sf : List FileEntry) (tol : Int) (p : String) (b : FileEntry),
      path_map_get lf p = none → path_map_get sf p = some b →
      (⟨"file." ++ p, dnone, .dfile b, LABEL_UNKNOWN, ""⟩ : DiffEntry) ∈ diff_files lf sf tol) ∧
    (∀ (a b : DevDict) (k : String), k ∈ a.map Prod.fst → k ∉ b.map Prod.fst →
      dev_get a k ≠ .prim .pnone →
      (⟨"device." ++ k, .dval (dev_get a k), .dval (.prim .pnone), LABEL_UNKNOWN, ""⟩ :
        DiffEntry) ∈ diff_device a b) ∧
    (∀ (a b : DevDict) (k : String), k ∉ a.map Prod.fst → k ∈ b.map Prod.fst →
      dev_get b k ≠ .prim .pnone →
      (⟨"device." ++ k, .dval (.prim .pnone), .dval (dev_get b k), LABEL_UNKNOWN, ""⟩ :
        DiffEntry) ∈ diff_device a b) ∧
    (∀ (a b : FileEntry) (tol : Int), b.path = a.path →
      (a.mtime = none ∨ b.mtime = none) →
      diff_files [a] [b] tol =
        (if a.size_bytes ≠ b.size_bytes then
          [⟨"file." ++ a.path ++ ".size_bytes", dint a.size_bytes, dint b.size_bytes,
            LABEL_UNKNOWN, ""⟩]
        else [])) := by
  refine ⟨aux_diff_files_not_both_none, aux_diff_device_not_both_none,
    aux_mem_diff_files_lib_only, aux_mem_diff_files_swift_only, ?_, ?_, ?_⟩
  · intro a b k hka hkb hne
    have hb : dev_get b k = .prim .pnone := by
      rw [dev_get, aux_alget_not_mem b k hkb]
      rfl
    exact (aux_mem_diff_device a b _).2 ⟨k, Or.inl hka, by rw [hb]; exact hne, by rw [hb]⟩
  · intro a b k hka hkb hne
    have ha : dev_get a k = .prim .pnone := by
      rw [dev_get, aux_alget_not_mem a k hka]
      rfl
    exact (aux_mem_diff_device a b _).2
      ⟨k, Or.inr hkb, by rw [ha]; exact fun h => hne h.symm, by rw [ha]⟩
  · intro a b tol hp hm
    rw [aux_diff_files_pair a b tol hp]
    rcases hma : a.mtime with _ | am <;> rcases hmb : b.mtime with _ | bm <;> simp
    · rcases hm with hm | hm
      · rw [hma] at hm; exact absurd hm (by simp)
      · rw [hmb] at hm; exact absurd hm (by simp)

/-- Witness for C2 amended at concrete inputs. -/
theorem c2_symmetry_of_absence_amended_witness :
    (⟨"file.x", .dfile ⟨"x", 7, none⟩, dnone, LABEL_UNKNOWN, ""⟩ : DiffEntry) ∈
      diff_files [⟨"x", 7, none⟩] [] 0 ∧
    diff_files [⟨"a", 1, some 100⟩] [⟨"a", 2, none⟩] 0 =
      [⟨"file.a.size_bytes", dint 1, dint 2, LABEL_UNKNOWN, ""⟩] :=
  ⟨c2_symmetry_of_absence_amended.2.2.1 [⟨"x", 7, none⟩] [] 0 "x" ⟨"x", 7, none⟩
      (by decide) (by decide),
   by
    have h := c2_symmetry_of_absence_amended.2.2.2.2.2.2 ⟨"a", 1, some 100⟩ ⟨"a", 2, none⟩ 0
      (by decide) (Or.inr (by decide))
    simpa using h⟩

/-- C6 counterexample: a negative overlay tolerance override is not
rejected anywhere — `main` applies it verbatim and the pipeline diffs
with it, flagging even equal mtimes — contradicting the claimed
load-time validation. -/
theorem c6_counterexample :
    resolve_ts_tol 120 ⟨[], [], [], some (-1)⟩ = -1 ∧
    pipeline_diffs [("error", .prim (.pstr "mtp-detect not found"))]
        [("error", .prim (.pstr "swift not found"))]
        [⟨1, 0, some "a", some 1, some 100⟩] [] [.mk "a" "file" [] 1 (some 100)]
        120 ⟨[], [], [], some (-1)⟩ =
      [⟨"file.a.mtime", dint 100, dint 100, LABEL_UNKNOWN, ""⟩] := by
  constructor
  · decide
  · decide

/-- C6 amended: the overlay tolerance override is applied verbatim with
no validation — a negative value included — in which case every same-path
pair carrying two mtimes is flagged, equal timestamps included. -/
theorem c6_tolerance_amended (arg_tol t : Int) (ov : Overlay)
    (hov : ov.tolerance_timestamp_seconds = some t) :
    resolve_ts_tol arg_tol ov = t ∧
    (t < 0 → ∀ (p : String) (sa sb am bm : Int),
      (⟨"file." ++ p ++ ".mtime", dint am, dint bm, LABEL_UNKNOWN, ""⟩ : DiffEntry) ∈
        diff_files [⟨p, sa, some am⟩] [⟨p, sb, some bm⟩] (resolve_ts_tol arg_tol ov)) := by
  have hres : resolve_ts_tol arg_tol ov = t := by simp [resolve_ts_tol, hov]
  refine ⟨hres, ?_⟩
  intro ht p sa sb am bm
  rw [hres, aux_diff_files_pair ⟨p, sa, some am⟩ ⟨p, sb, some bm⟩ t rfl]
  have habs : |am - bm| > t := lt_of_lt_of_le ht (abs_nonneg _)
  refine List.mem_append.2 (Or.inr ?_)
  simp [habs]

/-- Witness for C6 amended with a concrete negative override. -/
theorem c6_tolerance_amended_witness :
    resolve_ts_tol 120 ⟨[], [], [], some (-1)⟩ = -1 ∧
    (⟨"file.a.mtime", dint 5, dint 5, LABEL_UNKNOWN, ""⟩ : DiffEntry) ∈
      diff_files [⟨"a", 1, some 5⟩] [⟨"a", 1, some 5⟩]
        (resolve_ts_tol 120 ⟨[], [], [], some (-1)⟩) :=
  ⟨(c6_tolerance_amended 120 (-1) ⟨[], [], [], some (-1)⟩ rfl).1,
   (c6_tolerance_amended 120 (-1) ⟨[], [], [], some (-1)⟩ rfl).2 (by decide) "a" 1 1 5 5⟩

/-- C8 counterexample: a `known_bugs` pattern without an explicit label
leaves the matched entry with label `unknown` and with the entry's own
(empty) reason — no explanatory reason describing the configuration
error is recorded anywhere. -/
theorem c8_counterexample :
    classify_diffs [⟨"device.model", dnone, .dval (.prim (.pstr "P")), LABEL_UNKNOWN, ""⟩]
        ⟨[], [], [⟨"device.model", none, ""⟩], none⟩ =
      [⟨"device.model", dnone, .dval (.prim (.pstr "P")), LABEL_UNKNOWN, ""⟩] ∧
    (∀ e ∈ classify_diffs [⟨"device.model", dnone, .dval (.prim (.pstr "P")), LABEL_UNKNOWN, ""⟩]
        ⟨[], [], [⟨"device.model", none, ""⟩], none⟩, e.reason = "") := by
  constructor
  · decide
  · decide

/-- C8 amended: a matched `known_bugs` pattern lacking an explicit label
labels the entry `unknown` and copies over only the overlay entry's own
reason (empty when it declares none); classification is total, so the
run continues. -/
theorem c8_known_bugs_unlabeled_amended (d : DiffEntry) (e : OverlayEntry)
    (hlabel : e.label = none) (hkey : e.key ≠ "") (hmatch : match_key d.key e.key = true) :
    classify_diffs [d] ⟨[], [], [e], none⟩ =
      [{ d with label := LABEL_UNKNOWN, reason := e.reason }] := by
  simp [classify_diffs, classify_one, build_map, dict_merge, alinsert, entry_label_reason,
    hlabel, hkey, hmatch, List.find?]

/-- Witness for C8 amended at a concrete entry and pattern. -/
theorem c8_known_bugs_unlabeled_amended_witness :
    classify_diffs [⟨"device.model", dnone, .dval (.prim (.pstr "P")), LABEL_UNKNOWN, ""⟩]
        ⟨[], [], [⟨"device.model", none, "known model mismatch"⟩], none⟩ =
      [⟨"device.model", dnone, .dval (.prim (.pstr "P")), LABEL_UNKNOWN,
        "known model mismatch"⟩] :=
  c8_known_bugs_unlabeled_amended
    ⟨"device.model", dnone, .dval (.prim (.pstr "P")), LABEL_UNKNOWN, ""⟩
    ⟨"device.model", none, "known model mismatch"⟩ rfl (by decide) (by decide)

/-! ## Classification label lemmas -/

theorem aux_mem_build_map (es : List OverlayEntry) (implied : Option String)
    (q : String × (String × String)) (hq : q ∈ build_map es implied) :
    ∃ e ∈ es, q = (e.key, entry_label_reason e implied) := by
  suffices h : ∀ (es : List OverlayEntry) (acc : List (String × (String × String))),
      q ∈ es.foldl (fun acc e =>
        if e.key = "" then acc else alinsert acc e.key (entry_label_reason e implied)) acc →
      q ∈ acc ∨ ∃ e ∈ es, q = (e.key, entry_label_reason e implied) by
    rcases h es [] hq with h | h
    · simp at h
    · exact h
  intro es
  induction es with
  | nil => intro acc h; exact Or.inl h
  | cons e es ih =>
    intro acc h
    rcases ih _ h with h' | h'
    · by_cases hk : e.key = ""
      · exact Or.inl (by simpa [hk] using h')
      · have h2 : q ∈ alinsert acc e.key (entry_label_reason e implied) := by
          simpa [hk] using h'
        rcases aux_mem_alinsert acc e.key (entry_label_reason e implied) q h2 with h'' | h''
        · exact Or.inr ⟨e, List.mem_cons_self e es, h''⟩
        · exact Or.inl h''
    · rcases h' with ⟨e', he', hqe⟩
      exact Or.inr ⟨e', List.mem_cons_of_mem e he', hqe⟩

theorem aux_mem_dict_merge (a b : List (String × (String × String)))
    (q : String × (String × String)) (hq : q ∈ dict_merge a b) : q ∈ a ∨ q ∈ b := by
  suffices h : ∀ (b a : List (String × (String × String))),
      q ∈ b.foldl (fun acc p => alinsert acc p.1 p.2) a → q ∈ a ∨ q ∈ b by
    exact h b a hq
  intro b
  induction b with
  | nil => intro a h; exact Or.inl h
  | cons p b ih =>
    intro a h
    rcases ih _ h with h' | h'
    · have h2 : q ∈ alinsert a p.1 p.2 := by simpa using h'
      rcases aux_mem_alinsert a p.1 p.2 q h2 with h'' | h''
      · exact Or.inr (by rw [h'']; exact List.mem_cons_self p b)
      · exact Or.inl h''
    · exact Or.inr (List.mem_cons_of_mem p h')

theorem aux_entry_label_closed (e : OverlayEntry) (implied : Option String)
    (hok : label_in_closed_set e.label = true)
    (himp : implied = none ∨ ∃ l ∈ ALL_LABELS, implied = some l) :
    (entry_label_reason e implied).1 ∈ ALL_LABELS := by
  rcases hl : e.label with _ | s
  · rcases himp with himp | ⟨l, hlm, himp⟩
    · subst himp
      simp only [entry_label_reason, hl, Option.getD_none, if_pos rfl]
      decide
    · subst himp
      have hne : l ≠ "" := by
        intro h
        rw [h] at hlm
        exact absurd hlm (by decide)
      simpa [entry_label_reason, hl, hne] using hlm
  · rw [hl] at hok
    simp only [label_in_closed_set, Bool.or_eq_true] at hok
    rcases hok with hok | hok
    · have hs : s ∈ ALL_LABELS := by
        rcases List.contains_iff_exists_mem_beq.1 hok with ⟨x, hx, hbeq⟩
        rwa [show s = x from by simpa using hbeq]
      have hne : s ≠ "" := by
        intro h
        rw [h] at hs
        exact absurd hs (by decide)
      simpa [entry_label_reason, hl, hne] using hs
    · have hs : s = "" := by simpa using hok
      simp only [entry_label_reason, hl, hs, if_pos rfl]
      decide

theorem aux_summary_keys_general (diffs : List DiffEntry) (m : List (String × Nat))
    (h : ∀ d ∈ diffs, d.label ∈ m.map Prod.fst) :
    (diffs.foldl
      (fun counts d => alinsert counts d.label ((alget counts d.label).getD 0 + 1)) m).map
        Prod.fst = m.map Prod.fst := by
  induction diffs generalizing m with
  | nil => rfl
  | cons d diffs ih =>
    have hd : d.label ∈ m.map Prod.fst := h d (List.mem_cons_self d diffs)
    have hkeys : (alinsert m d.label ((alget m d.label).getD 0 + 1)).map Prod.fst =
        m.map Prod.fst := aux_keys_alinsert_mem m d.label _ hd
    rw [List.foldl_cons, ih _ (fun d' hd' => by
      rw [hkeys]
      exact h d' (List.mem_cons_of_mem d hd')), hkeys]

/-- C7 counterexample: an overlay entry declaring the arbitrary label
string "weird" stamps that label verbatim onto the matched entry, and it
surfaces as a summary-count key — the label set is not closed. -/
theorem c7_counterexample :
    (classify_diffs [⟨"device.model", dnone, .dval (.prim (.pstr "P")), LABEL_UNKNOWN, ""⟩]
      ⟨[⟨"device.model", some "weird", "r"⟩], [], [], none⟩).map DiffEntry.label = ["weird"] ∧
    "weird" ∉ ALL_LABELS ∧
    ("weird", 1) ∈ summary_counts
      (classify_diffs [⟨"device.model", dnone, .dval (.prim (.pstr "P")), LABEL_UNKNOWN, ""⟩]
        ⟨[⟨"device.model", some "weird", "r"⟩], [], [], none⟩) := by
  refine ⟨by decide, by decide, by decide⟩

/-- C7 amended: provided every explicit overlay label is drawn from the
closed five-label set (or empty), every entry's label after
classification lies in that set and the summary counts carry exactly the
five declared label keys; an out-of-set overlay label would instead be
applied verbatim. -/
theorem c7_closed_label_set_amended (diffs : List DiffEntry) (ov : Overlay)
    (hov : ∀ e ∈ ov.intentional_differences ++ ov.quirk_needed ++ ov.known_bugs,
      label_in_closed_set e.label = true)
    (hdiffs : ∀ d ∈ diffs, d.label ∈ ALL_LABELS) :
    (∀ d ∈ classify_diffs diffs ov, d.label ∈ ALL_LABELS) ∧
    (summary_counts (classify_diffs diffs ov)).map Prod.fst = ALL_LABELS := by
  have hpat : ∀ q ∈ dict_merge
      (dict_merge (build_map ov.intentional_differences (some LABEL_INTENTIONAL))
        (build_map ov.quirk_needed (some LABEL_QUIRK_NEEDED)))
      (build_map ov.known_bugs none), q.2.1 ∈ ALL_LABELS := by
    intro q hq
    rcases aux_mem_dict_merge _ _ q hq with hq' | hq'
    · rcases aux_mem_dict_merge _ _ q hq' with hq'' | hq''
      · rcases aux_mem_build_map _ _ q hq'' with ⟨e, he, hqe⟩
        rw [hqe]
        exact aux_entry_label_closed e _ (hov e (by simp [he]))
          (Or.inr ⟨LABEL_INTENTIONAL, by decide, rfl⟩)
      · rcases aux_mem_build_map _ _ q hq'' with ⟨e, he, hqe⟩
        rw [hqe]
        exact aux_entry_label_closed e _ (hov e (by simp [he]))
          (Or.inr ⟨LABEL_QUIRK_NEEDED, by decide, rfl⟩)
    · rcases aux_mem_build_map _ _ q hq' with ⟨e, he, hqe⟩
      rw [hqe]
      exact aux_entry_label_closed e _ (hov e (by simp [he])) (Or.inl rfl)
  have hlab : ∀ d ∈ classify_diffs diffs ov, d.label ∈ ALL_LABELS := by
    intro d hd
    rw [classify_diffs] at hd
    rcases List.mem_map.1 hd with ⟨d₀, hd₀, hde⟩
    rw [← hde, classify_one]
    rcases hf : List.find? _ _ with _ | q
    · exact hdiffs d₀ hd₀
    · exact hpat q (List.mem_of_find?_eq_some hf)
  refine ⟨hlab, ?_⟩
  rw [summary_counts, aux_summary_keys_general _ _ (fun d hd => by
    rw [show (ALL_LABELS.map (fun lbl => (lbl, 0))).map Prod.fst = ALL_LABELS from by decide]
    exact hlab d hd)]
  decide

/-- Witness for C7 amended with a concrete overlay and diff list. -/
theorem c7_closed_label_set_amended_witness :
    (∀ d ∈ classify_diffs [⟨"device.model", dnone, .dval (.prim (.pstr "P")), LABEL_UNKNOWN, ""⟩]
        ⟨[⟨"device.model", some LABEL_BUG_LIBMTP, "r"⟩], [], [], none⟩,
      d.label ∈ ALL_LABELS) ∧
    (summary_counts
      (classify_diffs [⟨"device.model", dnone, .dval (.prim (.pstr "P")), LABEL_UNKNOWN, ""⟩]
        ⟨[⟨"device.model", some LABEL_BUG_LIBMTP, "r"⟩], [], [], none⟩)).map Prod.fst =
      ALL_LABELS :=
  c7_closed_label_set_amended
    [⟨"device.model", dnone, .dval (.prim (.pstr "P")), LABEL_UNKNOWN, ""⟩]
    ⟨[⟨"device.model", some LABEL_BUG_LIBMTP, "r"⟩], [], [], none⟩
    (by decide) (by decide)

/-! ## Overlay precedence -/

theorem aux_build_map_eq (es : List OverlayEntry) (implied : Option String)
    (hne : ∀ e ∈ es, e.key ≠ "") (hnd : (es.map OverlayEntry.key).Nodup) :
    build_map es implied = es.map (fun e => (e.key, entry_label_reason e implied)) := by
  suffices h : ∀ (es : List OverlayEntry) (acc : List (String × (String × String))),
      (∀ e ∈ es, e.key ≠ "") → (es.map OverlayEntry.key).Nodup →
      (∀ e ∈ es, e.key ∉ acc.map Prod.fst) →
      es.foldl (fun acc e =>
        if e.key = "" then acc else alinsert acc e.key (entry_label_reason e implied)) acc =
      acc ++ es.map (fun e => (e.key, entry_label_reason e implied)) by
    simpa [build_map] using h es [] hne hnd (by simp)
  intro es
  induction es with
  | nil => intro acc _ _ _; simp
  | cons e es ih =>
    intro acc hne hnd hdisj
    rw [List.map_cons] at hnd
    have hnd1 : e.key ∉ es.map OverlayEntry.key := (List.nodup_cons.1 hnd).1
    have hnd2 : (es.map OverlayEntry.key).Nodup := (List.nodup_cons.1 hnd).2
    have hek : e.key ≠ "" := hne e (List.mem_cons_self e es)
    have hstep : (if e.key = "" then acc
        else alinsert acc e.key (entry_label_reason e implied)) =
        acc ++ [(e.key, entry_label_reason e implied)] := by
      rw [if_neg hek,
        aux_alinsert_of_not_mem acc e.key _ (hdisj e (List.mem_cons_self e es))]
    rw [List.foldl_cons, hstep,
      ih (acc ++ [(e.key, entry_label_reason e implied)])
        (fun e' he' => hne e' (List.mem_cons_of_mem e he'))
        hnd2
        (fun e' he' => by
          simp only [List.map_append, List.mem_append, List.map_cons, List.map_nil,
            List.mem_singleton, not_or]
          refine ⟨hdisj e' (List.mem_cons_of_mem e he'), ?_⟩
          intro hcontra
          exact hnd1 (by rw [← hcontra]; exact List.mem_map.2 ⟨e', he', rfl⟩))]
    simp

theorem aux_dict_merge_append (a b : List (String × (String × String)))
    (hdisj : ∀ k ∈ b.map Prod.fst, k ∉ a.map Prod.fst)
    (hnd : (b.map Prod.fst).Nodup) :
    dict_merge a b = a ++ b := by
  induction b generalizing a with
  | nil => simp [dict_merge]
  | cons p b ih =>
    rw [List.map_cons] at hnd
    have hnd1 : p.1 ∉ b.map Prod.fst := (List.nodup_cons.1 hnd).1
    have hnd2 : (b.map Prod.fst).Nodup := (List.nodup_cons.1 hnd).2
    have hp : p.1 ∉ a.map Prod.fst := hdisj p.1 (by simp)
    have hmain : dict_merge a (p :: b) = dict_merge (a ++ [p]) b := by
      rw [dict_merge, List.foldl_cons, aux_alinsert_of_not_mem a p.1 p.2 hp]
      rfl
    rw [hmain, ih (a ++ [p]) ?_ hnd2]
    · simp
    · intro k hk
      simp only [List.map_append, List.mem_append, List.map_cons, List.map_nil,
        List.mem_singleton, not_or]
      refine ⟨hdisj k (List.mem_cons_of_mem _ hk), ?_⟩
      intro hcontra
      exact hnd1 (hcontra ▸ hk)

/-- C1 counterexample: the same pattern string declared in both the
intentional section and the known-defect section labels the matching
entry from the known-defect section — the `{**intentional, **quirk,
**bugs}` dict merge lets the later section overwrite the earlier one,
while the spec-ordered scan (`classify_spec`) picks `intentional`. -/
theorem c1_counterexample :
    classify_diffs [⟨"device.model", dnone, .dval (.prim (.pstr "P")), LABEL_UNKNOWN, ""⟩]
        ⟨[⟨"device.model", none, "documented"⟩], [],
         [⟨"device.model", some LABEL_BUG_LIBMTP, "bug"⟩], none⟩ =
      [⟨"device.model", dnone, .dval (.prim (.pstr "P")), LABEL_BUG_LIBMTP, "bug"⟩] ∧
    LABEL_BUG_LIBMTP ≠ LABEL_INTENTIONAL ∧
    classify_spec [⟨"device.model", dnone, .dval (.prim (.pstr "P")), LABEL_UNKNOWN, ""⟩]
        ⟨[⟨"device.model", none, "documented"⟩], [],
         [⟨"device.model", some LABEL_BUG_LIBMTP, "bug"⟩], none⟩ =
      [⟨"device.model", dnone, .dval (.prim (.pstr "P")), LABEL_INTENTIONAL, "documented"⟩] :=
  ⟨by decide, by decide, by decide⟩

/-- C1 amended: provided no pattern string is declared twice across the
three overlay sections (and no key is empty), classification follows the
spec's precedence exactly — section order intentional, then
needs-followup, then known-defect, declaration order within a section,
first match wins and matching stops; a repeated pattern string instead
takes the label and reason of its last declaration (the later section
overwriting the earlier). -/
theorem c1_overlay_precedence_amended (diffs : List DiffEntry) (ov : Overlay)
    (hkeys : ∀ e ∈ ov.intentional_differences ++ ov.quirk_needed ++ ov.known_bugs, e.key ≠ "")
    (hnodup : ((ov.intentional_differences ++ ov.quirk_needed ++ ov.known_bugs).map
      OverlayEntry.key).Nodup) :
    classify_diffs diffs ov = classify_spec diffs ov := by
  have hne1 : ∀ e ∈ ov.intentional_differences, e.key ≠ "" :=
    fun e he => hkeys e (by simp [he])
  have hne2 : ∀ e ∈ ov.quirk_needed, e.key ≠ "" := fun e he => hkeys e (by simp [he])
  have hne3 : ∀ e ∈ ov.known_bugs, e.key ≠ "" := fun e he => hkeys e (by simp [he])
  rw [List.map_append, List.map_append, List.nodup_append] at hnodup
  obtain ⟨hnd12, hnd3, hdisj3⟩ := hnodup
  rw [List.nodup_append] at hnd12
  obtain ⟨hnd1, hnd2, hdisj12⟩ := hnd12
  have hA := aux_build_map_eq ov.intentional_differences (some LABEL_INTENTIONAL) hne1 hnd1
  have hB := aux_build_map_eq ov.quirk_needed (some LABEL_QUIRK_NEEDED) hne2 hnd2
  have hC := aux_build_map_eq ov.known_bugs none hne3 hnd3
  have hk1 : (ov.intentional_differences.map
      (fun e => (e.key, entry_label_reason e (some LABEL_INTENTIONAL)))).map Prod.fst =
      ov.intentional_differences.map OverlayEntry.key := by
    simp [List.map_map, Function.comp]
  have hk2 : (ov.quirk_needed.map
      (fun e => (e.key, entry_label_reason e (some LABEL_QUIRK_NEEDED)))).map Prod.fst =
      ov.quirk_needed.map OverlayEntry.key := by
    simp [List.map_map, Function.comp]
  have hk3 : (ov.known_bugs.map
      (fun e => (e.key, entry_label_reason e none))).map Prod.fst =
      ov.known_bugs.map OverlayEntry.key := by
    simp [List.map_map, Function.comp]
  have hm12 : dict_merge
      (ov.intentional_differences.map
        (fun e => (e.key, entry_label_reason e (some LABEL_INTENTIONAL))))
      (ov.quirk_needed.map (fun e => (e.key, entry_label_reason e (some LABEL_QUIRK_NEEDED)))) =
      ov.intentional_differences.map
        (fun e => (e.key, entry_label_reason e (some LABEL_INTENTIONAL))) ++
      ov.quirk_needed.map (fun e => (e.key, entry_label_reason e (some LABEL_QUIRK_NEEDED))) := by
    apply aux_dict_merge_append
    · intro k hk
      rw [hk1]
      rw [hk2] at hk
      exact fun hk1m => hdisj12 hk1m hk
    · rw [hk2]; exact hnd2
  have hm123 : dict_merge
      (ov.intentional_differences.map
        (fun e => (e.key, entry_label_reason e (some LABEL_INTENTIONAL))) ++
       ov.quirk_needed.map (fun e => (e.key, entry_label_reason e (some LABEL_QUIRK_NEEDED))))
      (ov.known_bugs.map (fun e => (e.key, entry_label_reason e none))) =
      ov.intentional_differences.map
        (fun e => (e.key, entry_label_reason e (some LABEL_INTENTIONAL))) ++
      ov.quirk_needed.map (fun e => (e.key, entry_label_reason e (some LABEL_QUIRK_NEEDED))) ++
      ov.known_bugs.map (fun e => (e.key, entry_label_reason e none)) := by
    apply aux_dict_merge_append
    · intro k hk
      rw [List.map_append, hk1, hk2]
      rw [hk3] at hk
      exact fun hkm => hdisj3 hkm hk
    · rw [hk3]; exact hnd3
  simp only [classify_diffs, classify_spec, hA, hB, hC, hm12, hm123]
  apply List.map_congr_left
  intro d _
  rw [classify_one, List.find?_append, List.find?_append]
  have e₁ : (fun (p : String × String × String) => match_key d.key p.1) ∘
      (fun e => (e.key, entry_label_reason e (some LABEL_INTENTIONAL))) =
      fun e => match_key d.key e.key := rfl
  have e₂ : (fun (p : String × String × String) => match_key d.key p.1) ∘
      (fun e => (e.key, entry_label_reason e (some LABEL_QUIRK_NEEDED))) =
      fun e => match_key d.key e.key := rfl
  have e₃ : (fun (p : String × String × String) => match_key d.key p.1) ∘
      (fun e => (e.key, entry_label_reason e none)) =
      fun e => match_key d.key e.key := rfl
  rw [List.find?_map, List.find?_map, List.find?_map, e₁, e₂, e₃]
  rcases hf1 : ov.intentional_differences.find? (fun e => match_key d.key e.key) with _ | e1 <;>
    rcases hf2 : ov.quirk_needed.find? (fun e => match_key d.key e.key) with _ | e2 <;>
      rcases hf3 : ov.known_bugs.find? (fun e => match_key d.key e.key) with _ | e3 <;>
        simp [hf1, hf2, hf3]

/-- Witness for C1 amended with three disjoint single-pattern sections. -/
theorem c1_overlay_precedence_amended_witness :
    classify_diffs [⟨"device.model", dnone, .dval (.prim (.pstr "P")), LABEL_UNKNOWN, ""⟩]
        ⟨[⟨"device.model", none, "doc"⟩], [⟨"device.firmware", none, "fw"⟩],
         [⟨"device.manufacturer", some LABEL_BUG_LIBMTP, "mb"⟩], none⟩ =
      classify_spec [⟨"device.model", dnone, .dval (.prim (.pstr "P")), LABEL_UNKNOWN, ""⟩]
        ⟨[⟨"device.model", none, "doc"⟩], [⟨"device.firmware", none, "fw"⟩],
         [⟨"device.manufacturer", some LABEL_BUG_LIBMTP, "mb"⟩], none⟩ :=
  c1_overlay_precedence_amended
    [⟨"device.model", dnone, .dval (.prim (.pstr "P")), LABEL_UNKNOWN, ""⟩]
    ⟨[⟨"device.model", none, "doc"⟩], [⟨"device.firmware", none, "fw"⟩],
     [⟨"device.manufacturer", some LABEL_BUG_LIBMTP, "mb"⟩], none⟩
    (by decide) (by decide)

/-! ## Path resolution -/

theorem aux_chain_path_fuel (folders : List Folder)
    (hasc : ∀ g ∈ folders, g.parent_id < g.id) :
    ∀ (fid fuel fuel' : Nat), fid ≤ fuel → fid ≤ fuel' →
      chain_path folders fuel fid = chain_path folders fuel' fid := by
  intro fid
  induction fid using Nat.strong_induction_on with
  | _ fid ih =>
    intro fuel fuel' h1 h2
    match fid, fuel, fuel', h1, h2 with
    | 0, fuel, fuel', _, _ => cases fuel <;> cases fuel' <;> rfl
    | fid + 1, fuel + 1, fuel' + 1, h1, h2 =>
      simp only [chain_path]
      rcases hf : folders.find? (fun f => f.id == fid + 1) with _ | f
      · rw [hf]
      · rw [hf]
        dsimp only
        have hfid : f.id = fid + 1 := by simpa using List.find?_some hf
        have hmem : f ∈ folders := List.mem_of_find?_eq_some hf
        have hp : f.parent_id < fid + 1 := hfid ▸ hasc f hmem
        rw [ih f.parent_id hp fuel f.parent_id (by omega) (le_refl _),
          ih f.parent_id hp fuel' f.parent_id (by omega) (le_refl _)]

theorem aux_chain_path_not_mem (folders : List Folder) (fid : Nat)
    (h : fid ∉ folders.map Folder.id) :
    chain_path folders fid fid = "" := by
  rcases fid with _ | k
  · rfl
  · have hf : folders.find? (fun f => f.id == k + 1) = none := by
      rw [List.find?_eq_none]
      intro g hg
      simp only [beq_iff_eq]
      intro hcontra
      exact h (hcontra ▸ List.mem_map.2 ⟨g, hg, rfl⟩)
    simp only [chain_path, hf]

theorem aux_find_folder (folders : List Folder) (f : Folder)
    (hnd : (folders.map Folder.id).Nodup) (hmem : f ∈ folders) :
    folders.find? (fun g => g.id == f.id) = some f := by
  induction folders with
  | nil => cases hmem
  | cons h t ih =>
    rw [List.map_cons] at hnd
    rcases List.mem_cons.1 hmem with rfl | hmem'
    · simp [List.find?]
    · have hne : (h.id == f.id) = false := by
        simp only [beq_eq_false_iff_ne]
        intro hcontra
        exact (List.nodup_cons.1 hnd).1 (hcontra ▸ List.mem_map.2 ⟨f, hmem', rfl⟩)
      rw [List.find?_cons_of_neg _ (by simp [hne])]
      exact ih (List.nodup_cons.1 hnd).2 hmem'

theorem aux_build_folder_map_chain (folders : List Folder)
    (hasc : ∀ g ∈ folders, g.parent_id < g.id)
    (hnd : (folders.map Folder.id).Nodup) :
    ∀ fid, alget (build_folder_map folders) fid =
      if fid = 0 ∨ fid ∈ folders.map Folder.id
      then some (chain_path folders fid fid) else none := by
  have hperm : List.Perm (List.insertionSort folderOrd folders) folders :=
    List.perm_insertionSort folderOrd folders
  have hsort : List.Sorted folderOrd (List.insertionSort folderOrd folders) :=
    List.sorted_insertionSort folderOrd folders
  suffices h : ∀ (l₂ l₁ : List Folder) (m : List (Nat × String)),
      l₁ ++ l₂ = List.insertionSort folderOrd folders →
      (∀ fid, alget m fid =
        if fid = 0 ∨ fid ∈ l₁.map Folder.id
        then some (chain_path folders fid fid) else none) →
      ∀ fid, alget (l₂.foldl (fun m f =>
          let parent := (alget m f.parent_id).getD ""
          alinsert m f.id (path_join parent f.name)) m) fid =
        if fid = 0 ∨ fid ∈ (l₁ ++ l₂).map Folder.id
        then some (chain_path folders fid fid) else none by
    intro fid
    have h0 : ∀ fid' : Nat, alget [(0, "")] fid' =
        if fid' = 0 ∨ fid' ∈ ([] : List Folder).map Folder.id
        then some (chain_path folders fid' fid') else none := by
      intro fid'
      by_cases hz : fid' = 0
      · subst hz
        simp [aux_alget_cons, chain_path]
      · have hb : (0 == fid') = false := by
          simp only [beq_eq_false_iff_ne]
          exact fun hh => hz hh.symm
        simp [aux_alget_cons, hz, hb, aux_alget_nil]
    have hres := h (List.insertionSort folderOrd folders) [] [(0, "")] rfl h0 fid
    have hcond : (fid = 0 ∨
        fid ∈ (([] : List Folder) ++ List.insertionSort folderOrd folders).map Folder.id) ↔
        (fid = 0 ∨ fid ∈ folders.map Folder.id) := by
      simp [(hperm.map Folder.id).mem_iff]
    rw [build_folder_map] at *
    rw [hres, if_congr hcond rfl rfl]
  intro l₂
  induction l₂ with
  | nil =>
    intro l₁ m hl hm fid
    simpa using hm fid
  | cons f l₂ ih =>
    intro l₁ m hl hm fid
    have hfs : f ∈ List.insertionSort folderOrd folders := by
      rw [← hl]
      exact List.mem_append.2 (Or.inr (List.mem_cons_self f l₂))
    have hff : f ∈ folders := hperm.mem_iff.1 hfs
    have hfasc : f.parent_id < f.id := hasc f hff
    have hsort' : List.Sorted folderOrd (l₁ ++ f :: l₂) := by
      rw [hl]
      exact hsort
    have hparent : (alget m f.parent_id).getD "" =
        chain_path folders f.parent_id f.parent_id := by
      rw [hm f.parent_id]
      by_cases hc : f.parent_id = 0 ∨ f.parent_id ∈ l₁.map Folder.id
      · rw [if_pos hc]
        rfl
      · rw [if_neg hc]
        push_neg at hc
        obtain ⟨hp0, hpl⟩ := hc
        have hnotmem : f.parent_id ∉ folders.map Folder.id := by
          intro hmem
          rcases List.mem_map.1 hmem with ⟨g, hg, hid⟩
          have hgs : g ∈ l₁ ++ f :: l₂ := by
            rw [hl]
            exact hperm.mem_iff.2 hg
          rcases List.mem_append.1 hgs with hin | hin
          · exact hpl (hid ▸ List.mem_map.2 ⟨g, hin, rfl⟩)
          · rcases List.mem_cons.1 hin with rfl | hin'
            · omega
            · have hle : folderOrd f g :=
                (List.pairwise_cons.1 (List.pairwise_append.1 hsort').2.1).1 g hin'
              have hle' : f.id ≤ g.id := hle
              omega
        rw [aux_chain_path_not_mem folders f.parent_id hnotmem]
        rfl
    have hval : path_join ((alget m f.parent_id).getD "") f.name =
        chain_path folders f.id f.id := by
      rw [hparent]
      obtain ⟨k, hk⟩ : ∃ k, f.id = k + 1 := ⟨f.id - 1, by omega⟩
      have hfind : folders.find? (fun g => g.id == k + 1) = some f := by
        have := aux_find_folder folders f hnd hff
        rwa [hk] at this
      rw [hk]
      simp only [chain_path, hfind]
      rw [aux_chain_path_fuel folders hasc f.parent_id k f.parent_id (by omega) (le_refl _)]
    have hm' : ∀ fid' : Nat,
        alget (alinsert m f.id (path_join ((alget m f.parent_id).getD "") f.name)) fid' =
        if fid' = 0 ∨ fid' ∈ (l₁ ++ [f]).map Folder.id
        then some (chain_path folders fid' fid') else none := by
      intro fid'
      rw [aux_alget_alinsert]
      by_cases hfid' : fid' = f.id
      · subst hfid'
        rw [if_pos rfl, hval, if_pos (Or.inr (by simp))]
      · rw [if_neg hfid', hm fid']
        have hiff : (fid' = 0 ∨ fid' ∈ (l₁ ++ [f]).map Folder.id) ↔
            (fid' = 0 ∨ fid' ∈ l₁.map Folder.id) := by
          simp [hfid']
        by_cases hc : fid' = 0 ∨ fid' ∈ l₁.map Folder.id
        · rw [if_pos hc, if_pos (hiff.2 hc)]
        · rw [if_neg hc, if_neg (fun hx => hc (hiff.1 hx))]
    have hstep := ih (l₁ ++ [f])
      (alinsert m f.id (path_join ((alget m f.parent_id).getD "") f.name))
      (by rw [List.append_assoc, List.singleton_append]; exact hl) hm' fid
    rw [List.foldl_cons]
    have hshape : ((l₁ ++ [f]) ++ l₂).map Folder.id = (l₁ ++ f :: l₂).map Folder.id := by
      rw [List.append_assoc, List.singleton_append]
    rw [hshape] at hstep
    exact hstep

/-- C9 counterexample: folder 5's parent (folder 10) is present in the
folder set, yet because ids are processed in ascending order the file
under folder 5 resolves to `child/f` instead of the full parent chain
`parent/child/f`. -/
theorem c9_counterexample :
    lib_files [⟨99, 5, some "f", some 0, none⟩]
        (build_folder_map [⟨5, 10, "child"⟩, ⟨10, 0, "parent"⟩]) = [⟨"child/f", 0, none⟩] ∧
    path_join (chain_path [⟨5, 10, "child"⟩, ⟨10, 0, "parent"⟩] 5 5) "f" = "parent/child/f" ∧
    ("child/f" : String) ≠ "parent/child/f" :=
  ⟨by decide, by decide, by decide⟩

/-- C9 amended: path resolution is total — it never throws, never drops a
file entry (one canonical entry per file record), and a file whose parent
id is unresolvable degrades to its bare name; full parent-chain
resolution holds provided every folder's id exceeds its parent's id (ids
unique), since the id→path map is built in ascending id order and an
earlier folder cannot see a later parent. -/
theorem c9_path_resolution_amended :
    (∀ (files : List LibFile) (fm : List (Nat × String)),
      (lib_files files fm).length = files.length) ∧
    (∀ (files : List LibFile) (folders : List Folder), ∀ f ∈ files,
      alget (build_folder_map folders) f.parent_id = none →
      (⟨f.name.getD "", f.size_bytes.getD 0, f.mtime⟩ : FileEntry) ∈
        lib_files files (build_folder_map folders)) ∧
    (∀ (files : List LibFile) (folders : List Folder),
      (∀ g ∈ folders, g.parent_id < g.id) → (folders.map Folder.id).Nodup →
      ∀ f ∈ files,
        (⟨path_join (chain_path folders f.parent_id f.parent_id) (f.name.getD ""),
          f.size_bytes.getD 0, f.mtime⟩ : FileEntry) ∈
          lib_files files (build_folder_map folders)) := by
  refine ⟨?_, ?_, ?_⟩
  · intro files fm
    rw [lib_files, (List.perm_insertionSort _ _).length_eq, List.length_map]
  · intro files folders f hf hnone
    rw [lib_files, aux_mem_insertionSort]
    refine List.mem_map.2 ⟨f, hf, ?_⟩
    rw [hnone]
    rfl
  · intro files folders hasc hnd f hf
    have hget : (alget (build_folder_map folders) f.parent_id).getD "" =
        chain_path folders f.parent_id f.parent_id := by
      rw [aux_build_folder_map_chain folders hasc hnd f.parent_id]
      by_cases hc : f.parent_id = 0 ∨ f.parent_id ∈ folders.map Folder.id
      · rw [if_pos hc]
        rfl
      · rw [if_neg hc]
        push_neg at hc
        rw [aux_chain_path_not_mem folders f.parent_id hc.2]
        rfl
    rw [lib_files, aux_mem_insertionSort]
    refine List.mem_map.2 ⟨f, hf, ?_⟩
    rw [hget]

/-- Witness for C9 amended on an ascending-id folder chain. -/
theorem c9_path_resolution_amended_witness :
    (⟨path_join (chain_path [⟨1, 0, "A"⟩, ⟨2, 1, "B"⟩] 2 2) "f", 7, none⟩ : FileEntry) ∈
      lib_files [⟨99, 2, some "f", some 7, none⟩]
        (build_folder_map [⟨1, 0, "A"⟩, ⟨2, 1, "B"⟩]) :=
  c9_path_resolution_amended.2.2 [⟨99, 2, some "f", some 7, none⟩]
    [⟨1, 0, "A"⟩, ⟨2, 1, "B"⟩] (by decide) (by decide)
    ⟨99, 2, some "f", some 7, none⟩ (by decide)

/-! ## Folders are never compared -/

theorem aux_orderedInsert_decomp (m : List Folder) (g : Folder) :
    ∃ l₁ l₂, m = l₁ ++ l₂ ∧ List.orderedInsert folderOrd g m = l₁ ++ g :: l₂ := by
  induction m with
  | nil => exact ⟨[], [], rfl, rfl⟩
  | cons c m ih =>
    by_cases hgc : folderOrd g c
    · exact ⟨[], c :: m, rfl, by simp [List.orderedInsert, hgc]⟩
    · rcases ih with ⟨l₁, l₂, hm, hoi⟩
      exact ⟨c :: l₁, l₂, by rw [hm]; rfl, by simp [List.orderedInsert, hgc, hoi]⟩

theorem aux_oi_mid (p₁ : List Folder) :
    ∀ (p₂ : List Folder) (g a : Folder), List.Sorted folderOrd (p₁ ++ g :: p₂) →
    ∃ q₁ q₂, List.orderedInsert folderOrd a (p₁ ++ p₂) = q₁ ++ q₂ ∧
      List.orderedInsert folderOrd a (p₁ ++ g :: p₂) = q₁ ++ g :: q₂ := by
  induction p₁ with
  | nil =>
    intro p₂ g a hsort
    by_cases hag : folderOrd a g
    · refine ⟨[a], p₂, ?_, by simp [List.orderedInsert, hag]⟩
      rcases p₂ with _ | ⟨c, p₂'⟩
      · rfl
      · have hgc : folderOrd g c :=
          (List.pairwise_cons.1 hsort).1 c (List.mem_cons_self c p₂')
        have hac : folderOrd a c := Nat.le_trans hag hgc
        simp [List.orderedInsert, hac]
    · exact ⟨[], List.orderedInsert folderOrd a p₂, rfl,
        by simp [List.orderedInsert, hag]⟩
  | cons c p₁' ih =>
    intro p₂ g a hsort
    have hsort' : List.Sorted folderOrd (p₁' ++ g :: p₂) := (List.pairwise_cons.1 hsort).2
    by_cases hac : folderOrd a c
    · exact ⟨a :: c :: p₁', p₂, by simp [List.orderedInsert, hac],
        by simp [List.orderedInsert, hac]⟩
    · rcases ih p₂ g a hsort' with ⟨q₁, q₂, h1, h2⟩
      exact ⟨c :: q₁, q₂, by simp [List.orderedInsert, hac, h1],
        by simp [List.orderedInsert, hac, h2]⟩

theorem aux_sort_insert_decomp (l₁ : List Folder) :
    ∀ (l₂ : List Folder) (g : Folder),
    ∃ p₁ p₂, List.insertionSort folderOrd (l₁ ++ l₂) = p₁ ++ p₂ ∧
      List.insertionSort folderOrd (l₁ ++ g :: l₂) = p₁ ++ g :: p₂ := by
  induction l₁ with
  | nil =>
    intro l₂ g
    rcases aux_orderedInsert_decomp (List.insertionSort folderOrd l₂) g with ⟨p₁, p₂, hm, hoi⟩
    exact ⟨p₁, p₂, hm, by simpa [List.insertionSort] using hoi⟩
  | cons a l₁' ih =>
    intro l₂ g
    rcases ih l₂ g with ⟨p₁, p₂, h1, h2⟩
    have hsorted : List.Sorted folderOrd (p₁ ++ g :: p₂) := by
      rw [← h2]
      exact List.sorted_insertionSort folderOrd (l₁' ++ g :: l₂)
    rcases aux_oi_mid p₁ p₂ g a hsorted with ⟨q₁, q₂, hq1, hq2⟩
    refine ⟨q₁, q₂, ?_, ?_⟩
    · show List.insertionSort folderOrd (a :: (l₁' ++ l₂)) = q₁ ++ q₂
      rw [List.insertionSort, h1, ← hq1]
    · show List.insertionSort folderOrd (a :: (l₁' ++ g :: l₂)) = q₁ ++ g :: q₂
      rw [List.insertionSort, h2, ← hq2]

theorem aux_fold_agree (l : List Folder) :
    ∀ (m m' : List (Nat × String)) (gid : Nat),
    (∀ j, j ≠ gid → alget m' j = alget m j) →
    (∀ f ∈ l, f.id ≠ gid ∧ f.parent_id ≠ gid) →
    ∀ j, j ≠ gid →
      alget (l.foldl (fun m f =>
        let parent := (alget m f.parent_id).getD ""
        alinsert m f.id (path_join parent f.name)) m') j =
      alget (l.foldl (fun m f =>
        let parent := (alget m f.parent_id).getD ""
        alinsert m f.id (path_join parent f.name)) m) j := by
  induction l with
  | nil => intro m m' gid hagree _ j hj; exact hagree j hj
  | cons f l ih =>
    intro m m' gid hagree hfresh j hj
    have hfid : f.id ≠ gid := (hfresh f (List.mem_cons_self f l)).1
    have hpid : f.parent_id ≠ gid := (hfresh f (List.mem_cons_self f l)).2
    have hparent : alget m' f.parent_id = alget m f.parent_id := hagree f.parent_id hpid
    rw [List.foldl_cons, List.foldl_cons]
    exact ih
      (alinsert m f.id (path_join ((alget m f.parent_id).getD "") f.name))
      (alinsert m' f.id (path_join ((alget m' f.parent_id).getD "") f.name)) gid
      (fun j' hj' => by
        rw [hparent, aux_alget_alinsert, aux_alget_alinsert]
        by_cases hjf : j' = f.id
        · rw [if_pos hjf, if_pos hjf]
        · rw [if_neg hjf, if_neg hjf]
          exact hagree j' hj')
      (fun f' hf' => hfresh f' (List.mem_cons_of_mem f hf')) j hj

theorem aux_build_folder_map_agree (l₁ l₂ : List Folder) (g : Folder)
    (hfresh : g.id ∉ (l₁ ++ l₂).map Folder.id)
    (hnopar : g.id ∉ (l₁ ++ l₂).map Folder.parent_id) :
    ∀ j, j ≠ g.id →
      alget (build_folder_map (l₁ ++ g :: l₂)) j = alget (build_folder_map (l₁ ++ l₂)) j := by
  intro j hj
  rcases aux_sort_insert_decomp l₁ l₂ g with ⟨p₁, p₂, h1, h2⟩
  have hsub : ∀ f ∈ p₂, f ∈ l₁ ++ l₂ := by
    intro f hf
    exact (List.perm_insertionSort folderOrd (l₁ ++ l₂)).mem_iff.1
      (h1 ▸ List.mem_append.2 (Or.inr hf))
  have hfresh₂ : ∀ f ∈ p₂, f.id ≠ g.id ∧ f.parent_id ≠ g.id := by
    intro f hf
    constructor
    · intro hcontra
      exact hfresh (hcontra ▸ List.mem_map.2 ⟨f, hsub f hf, rfl⟩)
    · intro hcontra
      exact hnopar (hcontra ▸ List.mem_map.2 ⟨f, hsub f hf, rfl⟩)
  rw [build_folder_map, build_folder_map, h1, h2, List.foldl_append,
    List.foldl_append, List.foldl_cons]
  exact aux_fold_agree p₂ _ _ g.id
    (fun j' hj' => by
      show alget (alinsert _ g.id _) j' = _
      rw [aux_alget_alinsert, if_neg hj'])
    hfresh₂ j hj

theorem aux_lib_files_agree (files : List LibFile) (l₁ l₂ : List Folder) (g : Folder)
    (hfresh : g.id ∉ (l₁ ++ l₂).map Folder.id)
    (hnopar : g.id ∉ (l₁ ++ l₂).map Folder.parent_id)
    (hnofile : ∀ f ∈ files, f.parent_id ≠ g.id) :
    lib_files files (build_folder_map (l₁ ++ g :: l₂)) =
      lib_files files (build_folder_map (l₁ ++ l₂)) := by
  rw [lib_files, lib_files]
  congr 1
  apply List.map_congr_left
  intro f hf
  rw [aux_build_folder_map_agree l₁ l₂ g hfresh hnopar f.parent_id (hnofile f hf)]

theorem aux_flatten_append (xs ys : List SwiftItem) (pfx : String) :
    flatten_tree (xs ++ ys) pfx = flatten_tree xs pfx ++ flatten_tree ys pfx := by
  induction xs with
  | nil => rfl
  | cons x xs ih =>
    show flatten_item x pfx ++ flatten_tree (xs ++ ys) pfx = _
    rw [ih]
    simp [flatten_tree]

/-- C10: the diff output is unchanged when the candidate-side tree gains
an empty folder node (flattening yields only non-folder leaves) and the
reference side gains a folder record that no file or folder references —
folders themselves are never compared, so such a folder yields zero Diff
Entries. -/
theorem c10_folders_never_compared (files : List LibFile) (l₁ l₂ : List Folder) (g : Folder)
    (t₁ t₂ : List SwiftItem) (nm : String) (sz : Int) (mt : Option Int) (ts_tol : Int)
    (hfresh : g.id ∉ (l₁ ++ l₂).map Folder.id)
    (hnopar : g.id ∉ (l₁ ++ l₂).map Folder.parent_id)
    (hnofile : ∀ f ∈ files, f.parent_id ≠ g.id) :
    diff_files (lib_files files (build_folder_map (l₁ ++ g :: l₂)))
        (swift_files (t₁ ++ SwiftItem.mk nm "folder" [] sz mt :: t₂)) ts_tol =
      diff_files (lib_files files (build_folder_map (l₁ ++ l₂)))
        (swift_files (t₁ ++ t₂)) ts_tol := by
  have hswift : swift_files (t₁ ++ SwiftItem.mk nm "folder" [] sz mt :: t₂) =
      swift_files (t₁ ++ t₂) := by
    rw [swift_files, swift_files, aux_flatten_append, aux_flatten_append]
    congr 2
  rw [hswift, aux_lib_files_agree files l₁ l₂ g hfresh hnopar hnofile]

/-- Witness for C10 with a concrete unreferenced empty folder on each
side. -/
theorem c10_folders_never_compared_witness :
    diff_files (lib_files [⟨9, 1, some "f", some 3, none⟩]
        (build_folder_map ([⟨1, 0, "A"⟩] ++ ⟨7, 0, "Empty"⟩ :: [])))
      (swift_files ([SwiftItem.mk "A" "folder" [SwiftItem.mk "f" "file" [] 3 none] 0 none] ++
        SwiftItem.mk "Empty" "folder" [] 0 none :: [])) 120 =
    diff_files (lib_files [⟨9, 1, some "f", some 3, none⟩]
        (build_folder_map ([⟨1, 0, "A"⟩] ++ [])))
      (swift_files ([SwiftItem.mk "A" "folder" [SwiftItem.mk "f" "file" [] 3 none] 0 none] ++
        [])) 120 :=
  c10_folders_never_compared [⟨9, 1, some "f", some 3, none⟩] [⟨1, 0, "A"⟩] [] ⟨7, 0, "Empty"⟩
    [SwiftItem.mk "A" "folder" [SwiftItem.mk "f" "file" [] 3 none] 0 none] []
    "Empty" 0 none 120 (by decide) (by decide) (by decide)
